import Mathlib

/-!
Shallow embedding of the minesweeper board engine from `src/minesweeper.rs`
(kmgill/minesweeper_web), together with theorems settling the frozen claims.

Modelling conventions:
* Rust `u32` values are modelled as `Nat`.  All claims are stated on
  well-formed boards (`GameBoard.WF`), whose linear square container has
  length `width * height` and whose area fits in a `u32`, so the `u32`
  arithmetic `y * width + x` of the source never wraps and the `Nat`
  translation is exact.
* The signed neighbor offsets (`i32` in the source) are modelled as `Int`.
* `rand::thread_rng().gen_range` is modelled by an explicit stream of sampled
  coordinates (a `List Coordinate`); the unbounded rejection-sampling loop of
  `populate_mines_around` returns `none` when the stream is exhausted before
  the loop exits, mirroring a non-terminating / still-running loop.
* The mutual recursion `reveal` / `cascade_from` is modelled with an explicit
  fuel parameter that is consumed exactly once per cascade entered; `none`
  means the fuel ran out.  The termination theorem (claim C9) shows that fuel
  `unrevealedCount + 1` always suffices, so this is a total model of the
  Rust recursion.
* `Coordinate::near` computes an `f32` Euclidean distance from `u32 as f32`
  casts and compares it with `1.5`.  It is modelled here by the ideal integer
  predicate `dx² + dy² ≤ 2` (for exact arithmetic, distance ≤ 1.5 is
  equivalent to squared distance ≤ 2).  The two agree whenever both
  coordinates are below `2^24`, where every cast is exact; above that the
  casts round to 24-bit precision and the source can accept a candidate at
  true distance ≤ 1.5 that the ideal predicate rejects (e.g. `2^25 + 3` and
  `2^25 + 2` cast `4.0` apart).  The mine-exclusion property is therefore
  settled against the source's f32 behaviour directly, not by a theorem
  over this idealisation; no other theorem's path evaluates `near`.
* Rust methods mutating `&mut self` are modelled by returning the updated
  board; fallible ones return `(Except Error PlayResult) × GameBoard` so the
  board on the error path is observable (claim C10).
-/

namespace Minesweeper

/-- `enum Error` of the source: initialization / play errors. -/
inductive Error where
  | ExcessiveMines
  | InvalidCoordinates
  | IndexOutOfBounds
  | InvalidCascade
  | UnexpectedResult
deriving DecidableEq

/-- `enum SquareType`: presence of a mine in a square. -/
inductive SquareType where
  | Empty
  | Mine
deriving DecidableEq

/-- `struct Square`: a single minesweeper square. -/
structure Square where
  is_revealed : Bool
  is_flagged : Bool
  square_type : SquareType
  numeral : Nat
deriving DecidableEq

/-- `Square::default()`: blank, unrevealed, unflagged, empty square. -/
def Square.blank : Square :=
  { is_revealed := false, is_flagged := false, square_type := SquareType.Empty, numeral := 0 }

instance : Inhabited Square := ⟨Square.blank⟩

/-- `Square::default_mine()`. -/
def Square.default_mine : Square :=
  { is_revealed := false, is_flagged := false, square_type := SquareType.Mine, numeral := 0 }

/-- `Square::is_mine`. -/
def Square.is_mine (s : Square) : Bool :=
  s.square_type = SquareType.Mine

/-- The square with its `is_revealed` bit set (the only mutation the
reveal/cascade family performs on a square). -/
def Square.asRevealed (s : Square) : Square :=
  { s with is_revealed := true }

/-- `struct Coordinate`: an (x, y) pair. -/
structure Coordinate where
  x : Nat
  y : Nat
deriving DecidableEq

/-- `Coordinate::near`, idealised: the source compares an f32 Euclidean
distance (computed from `u32 as f32` casts) with 1.5; this integer predicate
is that test under exact arithmetic.  It matches the source only while both
coordinates are below `2^24` — above that the casts round and the source's
answer can differ (see the header comment). -/
def Coordinate.near (self coord : Coordinate) : Bool :=
  ((self.x : Int) - coord.x) ^ 2 + ((self.y : Int) - coord.y) ^ 2 ≤ 2

/-- `enum RevealType`: the action kind dispatched by `play`. -/
inductive RevealType where
  | Reveal
  | RevealChord
  | Chord
  | Flag
deriving DecidableEq

/-- `enum PlayResult`: the (recursive) outcome of one play request. -/
inductive PlayResult where
  | Flagged : Bool → PlayResult
  | Explosion : Coordinate → PlayResult
  | NoChange : PlayResult
  | Revealed : Coordinate → PlayResult
  | CascadedReveal : List PlayResult → PlayResult

/-- `struct GameBoard`. -/
structure GameBoard where
  width : Nat
  height : Nat
  num_mines : Nat
  squares : List Square
  is_populated : Bool

/-- Well-formedness maintained by the engine: the linear container has exactly
`width * height` squares, and the area fits in a `u32` so the source's `u32`
index arithmetic is exact. -/
def GameBoard.WF (b : GameBoard) : Prop :=
  b.squares.length = b.width * b.height ∧ b.width * b.height < 2 ^ 32

instance (b : GameBoard) : Decidable b.WF := by
  unfold GameBoard.WF; infer_instance

/-- `GameBoard::new`. -/
def GameBoard.new (width height : Nat) : GameBoard :=
  { width := width, height := height, num_mines := 0,
    squares := List.replicate (width * height) Square.blank, is_populated := false }

/-- `GameBoard::xy_to_idx`. -/
def GameBoard.xy_to_idx (b : GameBoard) (x y : Nat) : Nat :=
  y * b.width + x

/-- `GameBoard::coordinate_to_idx`. -/
def GameBoard.coordinate_to_idx (b : GameBoard) (coord : Coordinate) : Nat :=
  b.xy_to_idx coord.x coord.y

/-- `GameBoard::get_square_by_idx`. -/
def GameBoard.get_square_by_idx (b : GameBoard) (idx : Nat) : Except Error Square :=
  if idx ≥ b.squares.length then Except.error Error.InvalidCoordinates
  else Except.ok (b.squares.getD idx Square.blank)

/-- `GameBoard::get_square`. -/
def GameBoard.get_square (b : GameBoard) (x y : Nat) : Except Error Square :=
  if x ≥ b.width ∨ y ≥ b.height then Except.error Error.InvalidCoordinates
  else b.get_square_by_idx (b.xy_to_idx x y)

/-- `GameBoard::get_square_by_coordinate`. -/
def GameBoard.get_square_by_coordinate (b : GameBoard) (coord : Coordinate) :
    Except Error Square :=
  b.get_square coord.x coord.y

/-- Observer: the square at (x, y) of a well-formed board (direct read). -/
def GameBoard.sq (b : GameBoard) (x y : Nat) : Square :=
  b.squares.getD (b.xy_to_idx x y) Square.blank

/-- `GameBoard::is_mine_protected`: mine test tolerating negative / invalid
coordinates. -/
def GameBoard.is_mine_protected (b : GameBoard) (x y : Int) : Bool :=
  if x < 0 then false
  else if y < 0 then false
  else
    match b.get_square x.toNat y.toNat with
    | Except.ok sqr => sqr.is_mine
    | Except.error _ => false

/-- `GameBoard::is_flagged_protected`. -/
def GameBoard.is_flagged_protected (b : GameBoard) (x y : Int) : Bool :=
  if x < 0 then false
  else if y < 0 then false
  else
    match b.get_square x.toNat y.toNat with
    | Except.ok sqr => sqr.is_flagged
    | Except.error _ => false

/-- The 3×3 offset list produced by `iproduct!(-1_i32..2_i32, -1_i32..2_i32)`:
the first component `dx` is the outer (slowest) loop, and the pair (0, 0)
(the target itself) is included. -/
def nhOffsets : List (Int × Int) :=
  [(-1, -1), (-1, 0), (-1, 1), (0, -1), (0, 0), (0, 1), (1, -1), (1, 0), (1, 1)]

/-- The sum computed by `flagged_neighbor_count` over the full 3×3 block
around (x, y), the target square itself included. -/
def flaggedNeighborSum (b : GameBoard) (x y : Nat) : Nat :=
  (nhOffsets.map (fun d =>
    if b.is_flagged_protected ((x : Int) + d.1) ((y : Int) + d.2) then 1 else 0)).sum

/-- The sum computed by `mined_neighbor_count` over the full 3×3 block around
(x, y), the target square itself included. -/
def minedNeighborSum (b : GameBoard) (x y : Nat) : Nat :=
  (nhOffsets.map (fun d =>
    if b.is_mine_protected ((x : Int) + d.1) ((y : Int) + d.2) then 1 else 0)).sum

/-- `GameBoard::flagged_neighbor_count`: sums `is_flagged_protected` over the
full 3×3 block around (x, y), the target square itself included. -/
def GameBoard.flagged_neighbor_count (b : GameBoard) (x y : Nat) : Except Error Nat :=
  if x ≥ b.width ∨ y ≥ b.height then Except.error Error.InvalidCoordinates
  else Except.ok (flaggedNeighborSum b x y)

/-- `GameBoard::mined_neighbor_count`: sums `is_mine_protected` over the full
3×3 block around (x, y), the target square itself included. -/
def GameBoard.mined_neighbor_count (b : GameBoard) (x y : Nat) : Except Error Nat :=
  if x ≥ b.width ∨ y ≥ b.height then Except.error Error.InvalidCoordinates
  else Except.ok (minedNeighborSum b x y)

/-- The mine placement mutation
`self.squares[idx] = Square::default_mine()` of the sampling loop. -/
def placeMineAt (b : GameBoard) (c : Coordinate) : GameBoard :=
  { b with squares := b.squares.set (b.coordinate_to_idx c) Square.default_mine }

/-- The rejection-sampling loop body of `populate_mines_around`, consuming an
explicit stream of sampled coordinates (`gen_random_square_coordinates`).
`none`: the stream ran out before `mines_placed` reached `num_mines`
(the Rust `while` loop is still running). -/
def placeMinesLoop (keep_clear : Option Coordinate) (num_mines : Nat) :
    List Coordinate → GameBoard → Nat → Option ((Except Error Unit) × GameBoard)
  | samples, b, mines_placed =>
    if mines_placed < num_mines then
      match samples with
      | [] => none
      | c :: rest =>
        match keep_clear with
        | some kc =>
          -- `get_square_by_coordinate(&random_coord)?`: fails (and the `?`
          -- propagates `InvalidCoordinates`) exactly when the coordinate is
          -- out of range or its linear index is out of bounds
          if c.x ≥ b.width ∨ c.y ≥ b.height then
            some (Except.error Error.InvalidCoordinates, b)
          else if b.coordinate_to_idx c ≥ b.squares.length then
            some (Except.error Error.InvalidCoordinates, b)
          else if ¬ (kc.near c) = true ∧ ¬ (b.sq c.x c.y).is_mine = true then
            placeMinesLoop keep_clear num_mines rest (placeMineAt b c) (mines_placed + 1)
          else
            placeMinesLoop keep_clear num_mines rest b mines_placed
        | none =>
          placeMinesLoop keep_clear num_mines rest (placeMineAt b c) (mines_placed + 1)
    else some (Except.ok (), b)

/-- `GameBoard::populate_mines_around`. -/
def GameBoard.populate_mines_around (b : GameBoard) (num_mines : Nat)
    (keep_clear : Option Coordinate) (samples : List Coordinate) :
    Option ((Except Error Unit) × GameBoard) :=
  if num_mines > b.width * b.height then some (Except.error Error.ExcessiveMines, b)
  else
    match placeMinesLoop keep_clear num_mines samples { b with num_mines := num_mines } 0 with
    | none => none
    | some (Except.error e, b') => some (Except.error e, b')
    | some (Except.ok _, b') => some (Except.ok (), { b' with is_populated := true })

/-- `GameBoard::populate_mines`. -/
def GameBoard.populate_mines (b : GameBoard) (num_mines : Nat) (samples : List Coordinate) :
    Option ((Except Error Unit) × GameBoard) :=
  b.populate_mines_around num_mines none samples

/-- The coordinate enumeration `iproduct!(0..width, 0..height)` (x outer). -/
def coordList (w h : Nat) : List (Nat × Nat) :=
  (List.range w).flatMap (fun x => (List.range h).map (fun y => (x, y)))

/-- One assignment step of `populate_numerals`:
`squares[idx].numeral = mined_neighbor_count(x, y).unwrap_or(0)`. -/
def setNumeralAt (b : GameBoard) (x y : Nat) : GameBoard :=
  let idx := b.xy_to_idx x y
  let old := b.squares.getD idx Square.blank
  let n : Nat := if x ≥ b.width ∨ y ≥ b.height then 0 else minedNeighborSum b x y
  { b with squares := b.squares.set idx { old with numeral := n } }

/-- `GameBoard::populate_numerals` (always returns `Ok(())`). -/
def GameBoard.populate_numerals (b : GameBoard) : (Except Error Unit) × GameBoard :=
  (Except.ok (), (coordList b.width b.height).foldl (fun acc p => setNumeralAt acc p.1 p.2) b)

/-- The mutation `self.squares[idx].is_flagged = !sqr.is_flagged` of `flag`. -/
def GameBoard.toggleFlagAt (b : GameBoard) (x y : Nat) : GameBoard :=
  let idx := b.xy_to_idx x y
  let old := b.sq x y
  let upd : Square := { old with is_flagged := ! old.is_flagged }
  { b with squares := b.squares.set idx upd }

/-- `GameBoard::flag`. -/
def GameBoard.flag (b : GameBoard) (x y : Nat) : (Except Error PlayResult) × GameBoard :=
  if x ≥ b.width ∨ y ≥ b.height then (Except.error Error.InvalidCoordinates, b)
  else if b.xy_to_idx x y ≥ b.squares.length then
    -- `get_square_by_idx(idx)?` fails, propagated by `?`
    (Except.error Error.InvalidCoordinates, b)
  else if ¬ (b.sq x y).is_revealed = true then
    (Except.ok (PlayResult.Flagged (! (b.sq x y).is_flagged)), b.toggleFlagAt x y)
  else (Except.ok PlayResult.NoChange, b)

/-- The mutation `self.squares[idx].is_revealed = true` at (x, y). -/
def GameBoard.markRevealed (b : GameBoard) (x y : Nat) : GameBoard :=
  let idx := b.xy_to_idx x y
  { b with squares := b.squares.set idx (b.squares.getD idx Square.blank).asRevealed }

/-- The type of a (fuel-instantiated) reveal function. -/
abbrev RevealFun :=
  GameBoard → Nat → Nat → Option ((Except Error PlayResult) × GameBoard)

/-- `GameBoard::reveal_protected` with the recursive `reveal` call abstracted:
reveal tolerating negative coordinates and swallowing errors
(`unwrap_or(NoChange)`). -/
def protectedCore (rv : RevealFun) (b : GameBoard) (x y : Int) :
    Option (PlayResult × GameBoard) :=
  if x < 0 then some (PlayResult.NoChange, b)
  else if y < 0 then some (PlayResult.NoChange, b)
  else
    match rv b x.toNat y.toNat with
    | none => none
    | some (Except.ok r, b') => some (r, b')
    | some (Except.error _, b') => some (PlayResult.NoChange, b')

/-- The `iproduct!(-1..2, -1..2).map(|(dx, dy)| self.reveal_protected(..))`
collection of `cascade_from` / `chord`, threading the board left to right. -/
def neighborsCore (rv : RevealFun) :
    List (Int × Int) → GameBoard → Nat → Nat → Option (List PlayResult × GameBoard)
  | [], b, _, _ => some ([], b)
  | d :: rest, b, x, y =>
    match protectedCore rv b ((x : Int) + d.1) ((y : Int) + d.2) with
    | none => none
    | some (r, b') =>
      match neighborsCore rv rest b' x y with
      | none => none
      | some (rs, b'') => some (r :: rs, b'')

/-- `GameBoard::cascade_from` with the recursive `reveal` call abstracted.
The source reads `self.squares[idx]` directly (a panicking index); on the
well-formed boards of the claims the in-range check makes the index valid,
so the total read `GameBoard.sq` is exact. -/
def cascadeCore (rv : RevealFun) (b : GameBoard) (x y : Nat) :
    Option ((Except Error PlayResult) × GameBoard) :=
  if x ≥ b.width ∨ y ≥ b.height then some (Except.error Error.InvalidCoordinates, b)
  else if (b.sq x y).is_mine = true ∨ (b.sq x y).is_flagged = true ∨
      (b.sq x y).numeral > 0 then
    some (Except.error Error.InvalidCascade, b)
  else
    match neighborsCore rv nhOffsets (b.markRevealed x y) x y with
    | none => none
    | some (results, b') => some (Except.ok (PlayResult.CascadedReveal results), b')

/-- The body of `GameBoard::reveal` with the cascade call abstracted into a
continuation `casc` (the recursion into `cascade_from`). -/
def revealCore (casc : RevealFun) (b : GameBoard) (x y : Nat) :
    Option ((Except Error PlayResult) × GameBoard) :=
  if x ≥ b.width ∨ y ≥ b.height then some (Except.error Error.InvalidCoordinates, b)
  else if b.xy_to_idx x y ≥ b.squares.length then
    -- `get_square_by_idx(idx)?` fails, propagated by `?`
    some (Except.error Error.InvalidCoordinates, b)
  else if (b.sq x y).is_mine = true ∧ ¬ (b.sq x y).is_flagged = true then
    some (Except.ok (PlayResult.Explosion ⟨x, y⟩), b.markRevealed x y)
  else if ¬ (b.sq x y).is_mine = true ∧ ¬ (b.sq x y).is_flagged = true ∧
      ¬ (b.sq x y).is_revealed = true then
    if (b.sq x y).numeral = 0 then
      casc b x y
    else
      some (Except.ok (PlayResult.Revealed ⟨x, y⟩), b.markRevealed x y)
  else
    some (Except.ok PlayResult.NoChange, b)

/-- `GameBoard::reveal` with explicit fuel consumed once per cascade entered;
`none` = out of fuel (the source recursion still running). -/
def revealGo : Nat → GameBoard → Nat → Nat → Option ((Except Error PlayResult) × GameBoard)
  | 0 => revealCore (fun _ _ _ => none)
  | fuel + 1 => revealCore (cascadeCore (revealGo fuel))

/-- `GameBoard::reveal` (source-named wrapper). -/
def GameBoard.reveal (b : GameBoard) (fuel : Nat) (x y : Nat) :
    Option ((Except Error PlayResult) × GameBoard) :=
  revealGo fuel b x y

/-- `GameBoard::cascade_from` (source-named wrapper). -/
def GameBoard.cascade_from (b : GameBoard) (fuel : Nat) (x y : Nat) :
    Option ((Except Error PlayResult) × GameBoard) :=
  cascadeCore (revealGo fuel) b x y

/-- `GameBoard::reveal_protected` (source-named wrapper). -/
def GameBoard.reveal_protected (b : GameBoard) (fuel : Nat) (x y : Int) :
    Option (PlayResult × GameBoard) :=
  protectedCore (revealGo fuel) b x y

/-- The 9-neighbor protected-reveal scan (source-named wrapper). -/
def GameBoard.revealNeighbors (b : GameBoard) (fuel : Nat) (ds : List (Int × Int))
    (x y : Nat) : Option (List PlayResult × GameBoard) :=
  neighborsCore (revealGo fuel) ds b x y

/-- `GameBoard::can_chord_square`. -/
def GameBoard.can_chord_square (b : GameBoard) (x y : Nat) : Except Error Bool :=
  if x ≥ b.width ∨ y ≥ b.height then Except.error Error.InvalidCoordinates
  else if b.xy_to_idx x y ≥ b.squares.length then
    -- `get_square(x, y)?` fails, propagated by `?`
    Except.error Error.InvalidCoordinates
  else if (b.sq x y).numeral = 0 ∨ (b.sq x y).numeral = flaggedNeighborSum b x y then
    Except.ok true
  else Except.ok false

/-- `GameBoard::chord`. -/
def GameBoard.chord (b : GameBoard) (fuel : Nat) (x y : Nat) :
    Option ((Except Error PlayResult) × GameBoard) :=
  if x ≥ b.width ∨ y ≥ b.height then some (Except.error Error.InvalidCoordinates, b)
  else if b.xy_to_idx x y ≥ b.squares.length then
    -- `can_chord_square(x, y)?` fails, propagated by `?`
    some (Except.error Error.InvalidCoordinates, b)
  else if (b.sq x y).numeral = 0 ∨ (b.sq x y).numeral = flaggedNeighborSum b x y then
    match b.revealNeighbors fuel nhOffsets x y with
    | none => none
    | some (results, b') => some (Except.ok (PlayResult.CascadedReveal results), b')
  else some (Except.ok PlayResult.NoChange, b)

/-- `GameBoard::revealchord`. -/
def GameBoard.revealchord (b : GameBoard) (fuel : Nat) (x y : Nat) :
    Option ((Except Error PlayResult) × GameBoard) :=
  match b.reveal fuel x y with
  | none => none
  | some (Except.error e, b') => some (Except.error e, b')
  | some (Except.ok rv, b1) =>
    match b1.chord fuel x y with
    | none => none
    | some (Except.error e, b2) => some (Except.error e, b2)
    | some (Except.ok rc, b2) =>
      match rc with
      | PlayResult.CascadedReveal v => some (Except.ok (PlayResult.CascadedReveal (v ++ [rv])), b2)
      | PlayResult.NoChange => some (Except.ok (PlayResult.CascadedReveal [rv]), b2)
      | _ => some (Except.error Error.UnexpectedResult, b2)

/-- `GameBoard::play`. -/
def GameBoard.play (b : GameBoard) (fuel : Nat) (x y : Nat) (reveal_type : RevealType) :
    Option ((Except Error PlayResult) × GameBoard) :=
  match reveal_type with
  | RevealType.Flag => some (b.flag x y)
  | RevealType.Reveal => b.reveal fuel x y
  | RevealType.Chord => b.chord fuel x y
  | RevealType.RevealChord => b.revealchord fuel x y

/-- `GameBoard::is_win_configuration`. -/
def GameBoard.is_win_configuration (b : GameBoard) : Bool :=
  (b.squares.map (fun s => if ¬ s.is_mine = true ∧ ¬ s.is_revealed = true then 1 else 0)).sum
    = (0 : Nat)

/-- `GameBoard::is_loss_configuration`. -/
def GameBoard.is_loss_configuration (b : GameBoard) : Bool :=
  (b.squares.map (fun s => if s.is_mine = true ∧ s.is_revealed = true then 1 else 0)).sum
    > (0 : Nat)

/-- `GameBoard::num_flags`. -/
def GameBoard.num_flags (b : GameBoard) : Nat :=
  (b.squares.map (fun s => if s.is_flagged = true then 1 else 0)).sum

/-- `GameBoard::num_revealed`. -/
def GameBoard.num_revealed (b : GameBoard) : Nat :=
  (b.squares.map (fun s => if s.is_revealed = true then 1 else 0)).sum

/-- Observer: number of mine-kind cells on the board (the quantity the spec's
population invariant speaks about — not stored in the source, counted here). -/
def GameBoard.mineKindCount (b : GameBoard) : Nat :=
  b.squares.countP (fun s => s.is_mine)

/-- Observer: number of unrevealed cells — the termination measure of the
reveal/cascade recursion. -/
def GameBoard.unrevealedCount (b : GameBoard) : Nat :=
  b.squares.countP (fun s => ! s.is_revealed)

/-! ### The step relation: how `reveal`/`cascade_from` may change a board

Every mutation performed by the reveal family sets some square's
`is_revealed` bit to `true` and touches nothing else. -/

/-- A square evolves during a reveal: unchanged, or marked revealed. -/
def squareStep (s s' : Square) : Prop :=
  s' = s ∨ s' = s.asRevealed

/-- A board evolves during a reveal: dimensions, mine count and population
flag unchanged, squares evolve pointwise by `squareStep`. -/
def boardStep (b b' : GameBoard) : Prop :=
  b'.width = b.width ∧ b'.height = b.height ∧ b'.num_mines = b.num_mines ∧
  b'.is_populated = b.is_populated ∧ List.Forall₂ squareStep b.squares b'.squares

theorem squareStep_refl {s : Square} : squareStep s s := Or.inl (Eq.refl s)

theorem squareStep_trans {s t u : Square} (h1 : squareStep s t) (h2 : squareStep t u) :
    squareStep s u := by
  rcases h1 with h1 | h1 <;> rcases h2 with h2 | h2 <;> subst h1 <;> subst h2 <;>
    simp [squareStep, Square.asRevealed]

theorem squareStep.type_eq {s s' : Square} (h : squareStep s s') :
    s'.square_type = s.square_type := by
  rcases h with h | h <;> subst h <;> rfl

theorem squareStep.flag_eq {s s' : Square} (h : squareStep s s') :
    s'.is_flagged = s.is_flagged := by
  rcases h with h | h <;> subst h <;> rfl

theorem squareStep.numeral_eq {s s' : Square} (h : squareStep s s') :
    s'.numeral = s.numeral := by
  rcases h with h | h <;> subst h <;> rfl

theorem squareStep.revealed_mono {s s' : Square} (h : squareStep s s')
    (hs : s.is_revealed = true) : s'.is_revealed = true := by
  rcases h with h | h <;> subst h <;> simp_all [Square.asRevealed]

theorem forall2_squareStep_refl : ∀ l : List Square, List.Forall₂ squareStep l l
  | [] => List.Forall₂.nil
  | _ :: t => List.Forall₂.cons squareStep_refl (forall2_squareStep_refl t)

theorem forall2_squareStep_trans : ∀ {l₁ l₂ l₃ : List Square},
    List.Forall₂ squareStep l₁ l₂ → List.Forall₂ squareStep l₂ l₃ →
    List.Forall₂ squareStep l₁ l₃
  | _, _, _, List.Forall₂.nil, List.Forall₂.nil => List.Forall₂.nil
  | _, _, _, List.Forall₂.cons h1 t1, List.Forall₂.cons h2 t2 =>
      List.Forall₂.cons (squareStep_trans h1 h2) (forall2_squareStep_trans t1 t2)

theorem forall2_squareStep_getD {l l' : List Square}
    (h : List.Forall₂ squareStep l l') :
    ∀ i, squareStep (l.getD i Square.blank) (l'.getD i Square.blank) := by
  induction h with
  | nil => intro i; exact squareStep_refl
  | cons hh ht ih =>
    intro i
    cases i with
    | zero => simpa using hh
    | succ j => simpa using ih j

theorem boardStep_refl {b : GameBoard} : boardStep b b :=
  ⟨Eq.refl _, Eq.refl _, Eq.refl _, Eq.refl _, forall2_squareStep_refl _⟩

theorem boardStep_trans {b1 b2 b3 : GameBoard} (h1 : boardStep b1 b2)
    (h2 : boardStep b2 b3) : boardStep b1 b3 := by
  obtain ⟨w1, h1', n1, p1, f1⟩ := h1
  obtain ⟨w2, h2', n2, p2, f2⟩ := h2
  exact ⟨w2.trans w1, h2'.trans h1', n2.trans n1, p2.trans p1,
    forall2_squareStep_trans f1 f2⟩

theorem boardStep.length_eq {b b' : GameBoard} (h : boardStep b b') :
    b'.squares.length = b.squares.length :=
  (h.2.2.2.2.length_eq).symm

theorem boardStep.WF_mono {b b' : GameBoard} (h : boardStep b b') (hwf : b.WF) : b'.WF := by
  have hl := h.length_eq
  obtain ⟨hw, hh, -, -, -⟩ := h
  constructor
  · rw [hl, hw, hh]; exact hwf.1
  · rw [hw, hh]; exact hwf.2

theorem boardStep.sq {b b' : GameBoard} (h : boardStep b b') (x y : Nat) :
    squareStep (b.sq x y) (b'.sq x y) := by
  have := forall2_squareStep_getD h.2.2.2.2 (b.xy_to_idx x y)
  unfold GameBoard.sq
  have hxy : b'.xy_to_idx x y = b.xy_to_idx x y := by
    unfold GameBoard.xy_to_idx; rw [h.1]
  rw [hxy]
  exact this

/-- Setting a square to its revealed version is a `squareStep` on the list. -/
theorem forall2_set_revealed :
    ∀ (l : List Square) (idx : Nat),
      List.Forall₂ squareStep l (l.set idx (l.getD idx Square.blank).asRevealed)
  | [], _ => by simp
  | s :: t, 0 =>
      List.Forall₂.cons (Or.inr (Eq.refl _)) (forall2_squareStep_refl t)
  | s :: t, idx + 1 =>
      List.Forall₂.cons squareStep_refl (forall2_set_revealed t idx)

theorem markRevealed_step (b : GameBoard) (x y : Nat) :
    boardStep b (b.markRevealed x y) :=
  ⟨rfl, rfl, rfl, rfl, forall2_set_revealed b.squares (b.xy_to_idx x y)⟩

/-- Unrevealed-count is monotone (non-increasing) along `squareStep` lists. -/
theorem countP_unrev_mono : ∀ {l l' : List Square},
    List.Forall₂ squareStep l l' →
    l'.countP (fun s => ! s.is_revealed) ≤ l.countP (fun s => ! s.is_revealed) := by
  intro l l' h
  induction h with
  | nil => simp
  | cons hh ht ih =>
    rename_i s s' t t'
    rcases hh with hh | hh <;> subst hh <;>
      simp [List.countP_cons, Square.asRevealed] <;> omega

theorem boardStep.unrev_mono {b b' : GameBoard} (h : boardStep b b') :
    b'.unrevealedCount ≤ b.unrevealedCount :=
  countP_unrev_mono h.2.2.2.2

/-- Revealing an unrevealed in-bounds square decreases the unrevealed count by
exactly one. -/
theorem countP_set_revealed :
    ∀ (l : List Square) (idx : Nat), idx < l.length →
      (l.getD idx Square.blank).is_revealed = false →
      (l.set idx (l.getD idx Square.blank).asRevealed).countP
          (fun s => ! s.is_revealed) + 1
        = l.countP (fun s => ! s.is_revealed)
  | [], idx, h, _ => by simp at h
  | s :: t, 0, _, hrev => by
      simp only [List.getD_cons_zero] at hrev
      simp [List.countP_cons, hrev, Square.asRevealed]
  | s :: t, idx + 1, h, hrev => by
      simp only [List.getD_cons_succ] at hrev
      have ih := countP_set_revealed t idx (by simpa using h) hrev
      have hset : (s :: t).set (idx + 1) ((s :: t).getD (idx + 1) Square.blank).asRevealed
          = s :: t.set idx (t.getD idx Square.blank).asRevealed := rfl
      rw [hset]
      simp only [List.countP_cons]
      omega

theorem unrev_markRevealed (b : GameBoard) (x y : Nat)
    (hidx : b.xy_to_idx x y < b.squares.length)
    (hrev : (b.squares.getD (b.xy_to_idx x y) Square.blank).is_revealed = false) :
    (b.markRevealed x y).unrevealedCount + 1 = b.unrevealedCount :=
  countP_set_revealed b.squares (b.xy_to_idx x y) hidx hrev

/-- `reveal` at any fuel unfolds to `revealCore` with the appropriate cascade
continuation. -/
theorem reveal_unfold (b : GameBoard) (fuel x y : Nat) :
    b.reveal fuel x y
      = revealCore (fun b2 x2 y2 =>
          match fuel with
          | 0 => none
          | fuel' + 1 => b2.cascade_from fuel' x2 y2) b x y := by
  cases fuel <;> rfl

/-! ### Monotonicity: every successful call of the reveal family performs a
`boardStep` (it only ever sets `is_revealed` bits). -/

theorem revealCore_step {casc : RevealFun}
    (hcasc : ∀ b x y r b', casc b x y = some (r, b') → boardStep b b')
    {b : GameBoard} {x y : Nat} {r : Except Error PlayResult} {b' : GameBoard}
    (h : revealCore casc b x y = some (r, b')) : boardStep b b' := by
  rw [revealCore] at h
  split at h
  · simp only [Option.some.injEq, Prod.mk.injEq] at h
    obtain ⟨-, h2⟩ := h; subst h2; exact boardStep_refl
  · split at h
    · simp only [Option.some.injEq, Prod.mk.injEq] at h
      obtain ⟨-, h2⟩ := h; subst h2; exact boardStep_refl
    · split at h
      · simp only [Option.some.injEq, Prod.mk.injEq] at h
        obtain ⟨-, h2⟩ := h; subst h2; exact markRevealed_step b x y
      · split at h
        · split at h
          · exact hcasc _ _ _ _ _ h
          · simp only [Option.some.injEq, Prod.mk.injEq] at h
            obtain ⟨-, h2⟩ := h; subst h2; exact markRevealed_step b x y
        · simp only [Option.some.injEq, Prod.mk.injEq] at h
          obtain ⟨-, h2⟩ := h; subst h2; exact boardStep_refl

theorem protectedCore_step {rv : RevealFun}
    (hrv : ∀ b x y r b', rv b x y = some (r, b') → boardStep b b')
    {b : GameBoard} {x y : Int} {r : PlayResult} {b' : GameBoard}
    (h : protectedCore rv b x y = some (r, b')) : boardStep b b' := by
  rw [protectedCore] at h
  split at h
  · simp only [Option.some.injEq, Prod.mk.injEq] at h
    obtain ⟨-, h2⟩ := h; subst h2; exact boardStep_refl
  · split at h
    · simp only [Option.some.injEq, Prod.mk.injEq] at h
      obtain ⟨-, h2⟩ := h; subst h2; exact boardStep_refl
    · split at h
      · exact absurd h (by simp)
      · rename_i heq
        simp only [Option.some.injEq, Prod.mk.injEq] at h
        obtain ⟨-, h2⟩ := h; subst h2; exact hrv _ _ _ _ _ heq
      · rename_i heq
        simp only [Option.some.injEq, Prod.mk.injEq] at h
        obtain ⟨-, h2⟩ := h; subst h2; exact hrv _ _ _ _ _ heq

theorem neighborsCore_step {rv : RevealFun}
    (hrv : ∀ b x y r b', rv b x y = some (r, b') → boardStep b b') :
    ∀ {ds : List (Int × Int)} {b : GameBoard} {x y : Nat} {rs : List PlayResult}
      {b' : GameBoard},
      neighborsCore rv ds b x y = some (rs, b') → boardStep b b' := by
  intro ds
  induction ds with
  | nil =>
    intro b x y rs b' h
    rw [neighborsCore] at h
    simp only [Option.some.injEq, Prod.mk.injEq] at h
    obtain ⟨-, h2⟩ := h; subst h2; exact boardStep_refl
  | cons d rest ih =>
    intro b x y rs b' h
    rw [neighborsCore] at h
    split at h
    · exact absurd h (by simp)
    · rename_i r b1 heq
      split at h
      · exact absurd h (by simp)
      · rename_i rs2 b2 heq2
        simp only [Option.some.injEq, Prod.mk.injEq] at h
        obtain ⟨-, h2⟩ := h; subst h2
        exact boardStep_trans (protectedCore_step hrv heq) (ih heq2)

theorem cascadeCore_step {rv : RevealFun}
    (hrv : ∀ b x y r b', rv b x y = some (r, b') → boardStep b b')
    {b : GameBoard} {x y : Nat} {r : Except Error PlayResult} {b' : GameBoard}
    (h : cascadeCore rv b x y = some (r, b')) : boardStep b b' := by
  rw [cascadeCore] at h
  split at h
  · simp only [Option.some.injEq, Prod.mk.injEq] at h
    obtain ⟨-, h2⟩ := h; subst h2; exact boardStep_refl
  · split at h
    · simp only [Option.some.injEq, Prod.mk.injEq] at h
      obtain ⟨-, h2⟩ := h; subst h2; exact boardStep_refl
    · split at h
      · exact absurd h (by simp)
      · rename_i rs b2 heq
        simp only [Option.some.injEq, Prod.mk.injEq] at h
        obtain ⟨-, h2⟩ := h; subst h2
        exact boardStep_trans (markRevealed_step b x y) (neighborsCore_step hrv heq)

theorem revealGo_step :
    ∀ (fuel : Nat) {b : GameBoard} {x y : Nat} {r : Except Error PlayResult}
      {b' : GameBoard}, revealGo fuel b x y = some (r, b') → boardStep b b' := by
  intro fuel
  induction fuel with
  | zero =>
    intro b x y r b' h
    exact revealCore_step (fun _ _ _ _ _ hh => absurd hh (by simp)) h
  | succ n ih =>
    intro b x y r b' h
    exact revealCore_step (fun _ _ _ _ _ hh => cascadeCore_step (fun _ _ _ _ _ g => ih g) hh) h

theorem reveal_step {b : GameBoard} {fuel x y : Nat} {r : Except Error PlayResult}
    {b' : GameBoard} (h : b.reveal fuel x y = some (r, b')) : boardStep b b' :=
  revealGo_step fuel h

theorem cascade_from_step {b : GameBoard} {fuel x y : Nat} {r : Except Error PlayResult}
    {b' : GameBoard} (h : b.cascade_from fuel x y = some (r, b')) : boardStep b b' :=
  cascadeCore_step (fun _ _ _ _ _ g => revealGo_step fuel g) h

theorem revealNeighbors_step {b : GameBoard} {fuel : Nat} {ds : List (Int × Int)}
    {x y : Nat} {rs : List PlayResult} {b' : GameBoard}
    (h : b.revealNeighbors fuel ds x y = some (rs, b')) : boardStep b b' :=
  neighborsCore_step (fun _ _ _ _ _ g => revealGo_step fuel g) h

theorem chord_step {b : GameBoard} {fuel x y : Nat} {r : Except Error PlayResult}
    {b' : GameBoard} (h : b.chord fuel x y = some (r, b')) : boardStep b b' := by
  rw [GameBoard.chord] at h
  split at h
  · simp only [Option.some.injEq, Prod.mk.injEq] at h
    obtain ⟨-, h2⟩ := h; subst h2; exact boardStep_refl
  · split at h
    · simp only [Option.some.injEq, Prod.mk.injEq] at h
      obtain ⟨-, h2⟩ := h; subst h2; exact boardStep_refl
    · split at h
      · split at h
        · exact absurd h (by simp)
        · rename_i rs2 b2 heq
          simp only [Option.some.injEq, Prod.mk.injEq] at h
          obtain ⟨-, h2⟩ := h; subst h2
          exact revealNeighbors_step heq
      · simp only [Option.some.injEq, Prod.mk.injEq] at h
        obtain ⟨-, h2⟩ := h; subst h2; exact boardStep_refl

/-! ### Fuel sufficiency: fuel exceeding the unrevealed-cell count always
produces a result. -/

theorem protectedCore_some {rv : RevealFun} {m : Nat}
    (hrv : ∀ b x y, b.unrevealedCount < m → (rv b x y).isSome)
    (b : GameBoard) (x y : Int) (hm : b.unrevealedCount < m) :
    (protectedCore rv b x y).isSome := by
  rw [protectedCore]
  split
  · simp
  · split
    · simp
    · have := hrv b x.toNat y.toNat hm
      cases hv : rv b x.toNat y.toNat with
      | none => rw [hv] at this; simp at this
      | some v =>
        obtain ⟨r, b'⟩ := v
        cases r <;> simp [hv]

theorem neighborsCore_some {rv : RevealFun} {m : Nat}
    (hrv : ∀ b x y, b.unrevealedCount < m → (rv b x y).isSome)
    (hrvs : ∀ b x y r b', rv b x y = some (r, b') → boardStep b b') :
    ∀ (ds : List (Int × Int)) (b : GameBoard) (x y : Nat),
      b.unrevealedCount < m → (neighborsCore rv ds b x y).isSome := by
  intro ds
  induction ds with
  | nil => intro b x y hm; rw [neighborsCore]; simp
  | cons d rest ih =>
    intro b x y hm
    rw [neighborsCore]
    have h1 := protectedCore_some hrv b ((x : Int) + d.1) ((y : Int) + d.2) hm
    cases hv : protectedCore rv b ((x : Int) + d.1) ((y : Int) + d.2) with
    | none => rw [hv] at h1; simp at h1
    | some v =>
      obtain ⟨r, b1⟩ := v
      have hstep := protectedCore_step hrvs hv
      have h2 := ih b1 x y (lt_of_le_of_lt hstep.unrev_mono hm)
      cases hv2 : neighborsCore rv rest b1 x y with
      | none => rw [hv2] at h2; simp at h2
      | some v2 => obtain ⟨rs, b2⟩ := v2; simp [hv, hv2]

theorem cascadeCore_some {rv : RevealFun} {m : Nat}
    (hrv : ∀ b x y, b.unrevealedCount < m → (rv b x y).isSome)
    (hrvs : ∀ b x y r b', rv b x y = some (r, b') → boardStep b b')
    (b : GameBoard) (x y : Nat)
    (hm : (b.markRevealed x y).unrevealedCount < m) :
    (cascadeCore rv b x y).isSome := by
  rw [cascadeCore]
  split
  · simp
  · split
    · simp
    · have h2 := neighborsCore_some hrv hrvs nhOffsets (b.markRevealed x y) x y hm
      cases hv : neighborsCore rv nhOffsets (b.markRevealed x y) x y with
      | none => rw [hv] at h2; simp at h2
      | some v => obtain ⟨rs, b2⟩ := v; simp

theorem revealGo_some :
    ∀ (fuel : Nat) (b : GameBoard) (x y : Nat), b.unrevealedCount < fuel →
      (revealGo fuel b x y).isSome := by
  intro fuel
  induction fuel with
  | zero => intro b x y hm; omega
  | succ n ih =>
    intro b x y hm
    show (revealCore (cascadeCore (revealGo n)) b x y).isSome
    rw [revealCore]
    split
    · simp
    · split
      · simp
      · split
        · simp
        · split
          · split
            · rename_i hinb hidx hcond hnum
              -- the cascade branch: the target is unrevealed and in bounds
              have hunrev' : (b.markRevealed x y).unrevealedCount + 1
                  = b.unrevealedCount := by
                apply unrev_markRevealed b x y (by omega)
                simpa [GameBoard.sq] using hcond.2.2
              exact cascadeCore_some ih (fun _ _ _ _ _ g => revealGo_step n g) b x y
                (by omega)
            · simp
          · simp

theorem reveal_some (b : GameBoard) (fuel x y : Nat) (hm : b.unrevealedCount < fuel) :
    (b.reveal fuel x y).isSome :=
  revealGo_some fuel b x y hm

theorem revealNeighbors_some (b : GameBoard) (fuel : Nat) (ds : List (Int × Int))
    (x y : Nat) (hm : b.unrevealedCount < fuel) :
    (b.revealNeighbors fuel ds x y).isSome :=
  neighborsCore_some (fun b2 x2 y2 g => revealGo_some fuel b2 x2 y2 g)
    (fun _ _ _ _ _ g => revealGo_step fuel g) ds b x y hm

theorem cascade_from_some (b : GameBoard) (fuel x y : Nat)
    (hm : (b.markRevealed x y).unrevealedCount < fuel) :
    (b.cascade_from fuel x y).isSome :=
  cascadeCore_some (fun b2 x2 y2 g => revealGo_some fuel b2 x2 y2 g)
    (fun _ _ _ _ _ g => revealGo_step fuel g) b x y hm

theorem chord_some (b : GameBoard) (fuel x y : Nat) (hm : b.unrevealedCount < fuel) :
    (b.chord fuel x y).isSome := by
  rw [GameBoard.chord]
  split
  · simp
  · split
    · simp
    · split
      · have h2 := revealNeighbors_some b fuel nhOffsets x y hm
        cases hv : b.revealNeighbors fuel nhOffsets x y with
        | none => rw [hv] at h2; simp at h2
        | some v => obtain ⟨rs, b2⟩ := v; simp
      · simp

/-! ### List and index helpers -/

theorem getD_set_self {α : Type} :
    ∀ (l : List α) (i : Nat), i < l.length → ∀ (v d : α), (l.set i v).getD i d = v
  | [], i, h, _, _ => by simp at h
  | a :: t, 0, _, v, d => rfl
  | a :: t, i + 1, h, v, d => getD_set_self t i (by simpa using h) v d

theorem getD_set_ne {α : Type} :
    ∀ (l : List α) (i j : Nat), i ≠ j → ∀ (v d : α), (l.set i v).getD j d = l.getD j d
  | [], _, _, _, _, _ => by simp
  | a :: t, 0, 0, h, _, _ => absurd rfl h
  | a :: t, 0, j + 1, _, v, d => rfl
  | a :: t, i + 1, 0, _, v, d => rfl
  | a :: t, i + 1, j + 1, h, v, d => getD_set_ne t i j (by omega) v d

/-- On a well-formed board, in-range coordinates have in-bounds indices. -/
theorem idx_lt_length {b : GameBoard} (hwf : b.WF) {x y : Nat}
    (hx : x < b.width) (hy : y < b.height) : b.xy_to_idx x y < b.squares.length := by
  rw [hwf.1, GameBoard.xy_to_idx]
  calc y * b.width + x < y * b.width + b.width := by omega
  _ = (y + 1) * b.width := by ring
  _ ≤ b.height * b.width := Nat.mul_le_mul_right _ (by omega)
  _ = b.width * b.height := Nat.mul_comm _ _

/-- Linear indexing is injective on in-range coordinates. -/
theorem xy_to_idx_inj {b : GameBoard} {x y x' y' : Nat}
    (hx : x < b.width) (hx' : x' < b.width)
    (h : b.xy_to_idx x y = b.xy_to_idx x' y') : x = x' ∧ y = y' := by
  rw [GameBoard.xy_to_idx, GameBoard.xy_to_idx] at h
  have hw : 0 < b.width := by omega
  have hxx : x = x' := by
    have h1 : (y * b.width + x) % b.width = x := by
      rw [Nat.add_comm, Nat.add_mul_mod_self_right, Nat.mod_eq_of_lt hx]
    have h2 : (y' * b.width + x') % b.width = x' := by
      rw [Nat.add_comm, Nat.add_mul_mod_self_right, Nat.mod_eq_of_lt hx']
    rw [← h1, ← h2, h]
  refine ⟨hxx, ?_⟩
  subst hxx
  have : y * b.width = y' * b.width := by omega
  exact Nat.eq_of_mul_eq_mul_right hw this

/-- `markRevealed` at the written cell. -/
theorem sq_markRevealed_self (b : GameBoard) (x y : Nat)
    (hidx : b.xy_to_idx x y < b.squares.length) :
    (b.markRevealed x y).sq x y = (b.sq x y).asRevealed := by
  rw [GameBoard.markRevealed, GameBoard.sq, GameBoard.sq]
  exact getD_set_self _ _ hidx _ _

/-- `markRevealed` elsewhere. -/
theorem sq_markRevealed_other (b : GameBoard) (x y p q : Nat)
    (hne : b.xy_to_idx x y ≠ b.xy_to_idx p q) :
    (b.markRevealed x y).sq p q = b.sq p q := by
  rw [GameBoard.markRevealed, GameBoard.sq, GameBoard.sq]
  exact getD_set_ne _ _ _ hne _ _

/-- `markRevealed` preserves dimensions and length. -/
theorem markRevealed_dims (b : GameBoard) (x y : Nat) :
    (b.markRevealed x y).width = b.width ∧ (b.markRevealed x y).height = b.height ∧
    (b.markRevealed x y).squares.length = b.squares.length := by
  refine ⟨rfl, rfl, ?_⟩
  rw [GameBoard.markRevealed]
  simp

/-! ### Field preservation along a `boardStep` -/

/-- A cell that is revealed or flagged: the state in which a cascade may leave
any neighbor of a revealed zero cell. -/
def revealedOrFlagged (b : GameBoard) (x y : Nat) : Prop :=
  (b.sq x y).is_revealed = true ∨ (b.sq x y).is_flagged = true

theorem boardStep.sq_flag_eq {b b' : GameBoard} (h : boardStep b b') (x y : Nat) :
    (b'.sq x y).is_flagged = (b.sq x y).is_flagged :=
  (h.sq x y).flag_eq

theorem boardStep.sq_type_eq {b b' : GameBoard} (h : boardStep b b') (x y : Nat) :
    (b'.sq x y).square_type = (b.sq x y).square_type :=
  (h.sq x y).type_eq

theorem boardStep.sq_numeral_eq {b b' : GameBoard} (h : boardStep b b') (x y : Nat) :
    (b'.sq x y).numeral = (b.sq x y).numeral :=
  (h.sq x y).numeral_eq

theorem boardStep.sq_revealed_mono {b b' : GameBoard} (h : boardStep b b') {x y : Nat}
    (hr : (b.sq x y).is_revealed = true) : (b'.sq x y).is_revealed = true :=
  (h.sq x y).revealed_mono hr

theorem boardStep.rof_mono {b b' : GameBoard} (h : boardStep b b') {x y : Nat}
    (hr : revealedOrFlagged b x y) : revealedOrFlagged b' x y := by
  rcases hr with hr | hr
  · exact Or.inl (h.sq_revealed_mono hr)
  · exact Or.inr (by rw [h.sq_flag_eq]; exact hr)

/-! ### Branch characterizations of the reveal family -/

theorem reveal_eq_oob (b : GameBoard) (fuel x y : Nat)
    (hx : x ≥ b.width ∨ y ≥ b.height) :
    b.reveal fuel x y = some (Except.error Error.InvalidCoordinates, b) := by
  rw [reveal_unfold, revealCore, if_pos hx]

theorem reveal_eq_idx_oob (b : GameBoard) (fuel x y : Nat)
    (hx : x < b.width) (hy : y < b.height)
    (hidx : b.xy_to_idx x y ≥ b.squares.length) :
    b.reveal fuel x y = some (Except.error Error.InvalidCoordinates, b) := by
  rw [reveal_unfold, revealCore, if_neg (by omega), if_pos hidx]

theorem reveal_eq_explosion (b : GameBoard) (fuel x y : Nat)
    (hx : x < b.width) (hy : y < b.height)
    (hidx : b.xy_to_idx x y < b.squares.length)
    (hm : (b.sq x y).is_mine = true) (hf : (b.sq x y).is_flagged = false) :
    b.reveal fuel x y
      = some (Except.ok (PlayResult.Explosion ⟨x, y⟩), b.markRevealed x y) := by
  rw [reveal_unfold, revealCore, if_neg (by omega), if_neg (by omega),
    if_pos ⟨hm, by simp [hf]⟩]

theorem reveal_eq_cascade (b : GameBoard) (fuel x y : Nat)
    (hx : x < b.width) (hy : y < b.height)
    (hidx : b.xy_to_idx x y < b.squares.length)
    (hm : (b.sq x y).is_mine = false) (hf : (b.sq x y).is_flagged = false)
    (hr : (b.sq x y).is_revealed = false) (hn : (b.sq x y).numeral = 0) :
    b.reveal (fuel + 1) x y = b.cascade_from fuel x y := by
  rw [reveal_unfold, revealCore, if_neg (by omega), if_neg (by omega),
    if_neg (by simp [hm]), if_pos ⟨by simp [hm], by simp [hf], by simp [hr]⟩,
    if_pos hn]

theorem reveal_zero_eq_none (b : GameBoard) (x y : Nat)
    (hx : x < b.width) (hy : y < b.height)
    (hidx : b.xy_to_idx x y < b.squares.length)
    (hm : (b.sq x y).is_mine = false) (hf : (b.sq x y).is_flagged = false)
    (hr : (b.sq x y).is_revealed = false) (hn : (b.sq x y).numeral = 0) :
    b.reveal 0 x y = none := by
  rw [reveal_unfold, revealCore, if_neg (by omega), if_neg (by omega),
    if_neg (by simp [hm]), if_pos ⟨by simp [hm], by simp [hf], by simp [hr]⟩,
    if_pos hn]

theorem reveal_eq_single (b : GameBoard) (fuel x y : Nat)
    (hx : x < b.width) (hy : y < b.height)
    (hidx : b.xy_to_idx x y < b.squares.length)
    (hm : (b.sq x y).is_mine = false) (hf : (b.sq x y).is_flagged = false)
    (hr : (b.sq x y).is_revealed = false) (hn : (b.sq x y).numeral ≠ 0) :
    b.reveal fuel x y
      = some (Except.ok (PlayResult.Revealed ⟨x, y⟩), b.markRevealed x y) := by
  rw [reveal_unfold, revealCore, if_neg (by omega), if_neg (by omega),
    if_neg (by simp [hm]), if_pos ⟨by simp [hm], by simp [hf], by simp [hr]⟩,
    if_neg hn]

theorem reveal_eq_nochange (b : GameBoard) (fuel x y : Nat)
    (hx : x < b.width) (hy : y < b.height)
    (hidx : b.xy_to_idx x y < b.squares.length)
    (hcase : (b.sq x y).is_flagged = true ∨
      ((b.sq x y).is_mine = false ∧ (b.sq x y).is_revealed = true)) :
    b.reveal fuel x y = some (Except.ok PlayResult.NoChange, b) := by
  rw [reveal_unfold, revealCore, if_neg (by omega), if_neg (by omega)]
  rcases hcase with hfl | ⟨hm, hr⟩
  · rw [if_neg (by simp [hfl]), if_neg (by simp [hfl])]
  · rw [if_neg (by simp [hm]), if_neg (by simp [hr])]

theorem cascade_eq_oob (b : GameBoard) (fuel x y : Nat)
    (hx : x ≥ b.width ∨ y ≥ b.height) :
    b.cascade_from fuel x y = some (Except.error Error.InvalidCoordinates, b) := by
  rw [GameBoard.cascade_from, cascadeCore, if_pos hx]

theorem cascade_eq_invalid (b : GameBoard) (fuel x y : Nat)
    (hx : x < b.width) (hy : y < b.height)
    (hprec : (b.sq x y).is_mine = true ∨ (b.sq x y).is_flagged = true ∨
      (b.sq x y).numeral > 0) :
    b.cascade_from fuel x y = some (Except.error Error.InvalidCascade, b) := by
  rw [GameBoard.cascade_from, cascadeCore, if_neg (by omega), if_pos hprec]

theorem cascade_eq_run (b : GameBoard) (fuel x y : Nat)
    (hx : x < b.width) (hy : y < b.height)
    (hm : (b.sq x y).is_mine = false) (hf : (b.sq x y).is_flagged = false)
    (hn : (b.sq x y).numeral = 0) :
    b.cascade_from fuel x y
      = match (b.markRevealed x y).revealNeighbors fuel nhOffsets x y with
        | none => none
        | some (results, b') =>
            some (Except.ok (PlayResult.CascadedReveal results), b') := by
  rw [GameBoard.cascade_from, cascadeCore, if_neg (by omega),
    if_neg (by simp [hm, hf, hn])]
  rfl

theorem revealNeighbors_nil (b : GameBoard) (fuel x y : Nat) :
    b.revealNeighbors fuel [] x y = some ([], b) := rfl

theorem revealNeighbors_cons (b : GameBoard) (fuel : Nat) (d : Int × Int)
    (rest : List (Int × Int)) (x y : Nat) :
    b.revealNeighbors fuel (d :: rest) x y
      = match b.reveal_protected fuel ((x : Int) + d.1) ((y : Int) + d.2) with
        | none => none
        | some (r, b') =>
          match b'.revealNeighbors fuel rest x y with
          | none => none
          | some (rs, b'') => some (r :: rs, b'') := rfl

theorem chord_eq_oob (b : GameBoard) (fuel x y : Nat)
    (hx : x ≥ b.width ∨ y ≥ b.height) :
    b.chord fuel x y = some (Except.error Error.InvalidCoordinates, b) := by
  rw [GameBoard.chord, if_pos hx]

theorem chord_eq_idx_oob (b : GameBoard) (fuel x y : Nat)
    (hx : x < b.width) (hy : y < b.height)
    (hidx : b.xy_to_idx x y ≥ b.squares.length) :
    b.chord fuel x y = some (Except.error Error.InvalidCoordinates, b) := by
  rw [GameBoard.chord, if_neg (by omega), if_pos hidx]

theorem chord_eq_nochange (b : GameBoard) (fuel x y : Nat)
    (hx : x < b.width) (hy : y < b.height)
    (hidx : b.xy_to_idx x y < b.squares.length)
    (hn : (b.sq x y).numeral ≠ 0) (hc : (b.sq x y).numeral ≠ flaggedNeighborSum b x y) :
    b.chord fuel x y = some (Except.ok PlayResult.NoChange, b) := by
  rw [GameBoard.chord, if_neg (by omega), if_neg (by omega),
    if_neg (by simp [hn, hc])]

theorem chord_eq_run (b : GameBoard) (fuel x y : Nat)
    (hx : x < b.width) (hy : y < b.height)
    (hidx : b.xy_to_idx x y < b.squares.length)
    (hcan : (b.sq x y).numeral = 0 ∨ (b.sq x y).numeral = flaggedNeighborSum b x y) :
    b.chord fuel x y
      = match b.revealNeighbors fuel nhOffsets x y with
        | none => none
        | some (results, b') =>
            some (Except.ok (PlayResult.CascadedReveal results), b') := by
  rw [GameBoard.chord, if_neg (by omega), if_neg (by omega), if_pos hcan]

theorem flag_eq_toggle (b : GameBoard) (x y : Nat)
    (hx : x < b.width) (hy : y < b.height)
    (hidx : b.xy_to_idx x y < b.squares.length)
    (hr : (b.sq x y).is_revealed = false) :
    b.flag x y = (Except.ok (PlayResult.Flagged (! (b.sq x y).is_flagged)),
      b.toggleFlagAt x y) := by
  rw [GameBoard.flag, if_neg (by omega), if_neg (by omega), if_pos (by simp [hr])]

theorem flag_eq_nochange (b : GameBoard) (x y : Nat)
    (hx : x < b.width) (hy : y < b.height)
    (hidx : b.xy_to_idx x y < b.squares.length)
    (hr : (b.sq x y).is_revealed = true) :
    b.flag x y = (Except.ok PlayResult.NoChange, b) := by
  rw [GameBoard.flag, if_neg (by omega), if_neg (by omega), if_neg (by simp [hr])]

/-! ### Shape of reveal results -/

theorem Square.is_mine_true_iff {s : Square} :
    s.is_mine = true ↔ s.square_type = SquareType.Mine := by
  simp [Square.is_mine]

theorem Square.is_mine_false_iff {s : Square} :
    s.is_mine = false ↔ s.square_type = SquareType.Empty := by
  cases h : s.square_type <;> simp [Square.is_mine, h]

/-- In range and in bounds, `reveal` never returns an error. -/
theorem reveal_no_error (b : GameBoard) (fuel x y : Nat)
    (hx : x < b.width) (hy : y < b.height)
    (hidx : b.xy_to_idx x y < b.squares.length)
    {e : Error} {b' : GameBoard} :
    b.reveal fuel x y = some (Except.error e, b') → False := by
  intro h
  by_cases hf : (b.sq x y).is_flagged = true
  · rw [reveal_eq_nochange b fuel x y hx hy hidx (Or.inl hf)] at h
    simp at h
  · have hf' : (b.sq x y).is_flagged = false := by simpa using hf
    by_cases hm : (b.sq x y).is_mine = true
    · rw [reveal_eq_explosion b fuel x y hx hy hidx hm hf'] at h
      simp at h
    · have hm' : (b.sq x y).is_mine = false := by simpa using hm
      by_cases hr : (b.sq x y).is_revealed = true
      · rw [reveal_eq_nochange b fuel x y hx hy hidx (Or.inr ⟨hm', hr⟩)] at h
        simp at h
      · have hr' : (b.sq x y).is_revealed = false := by simpa using hr
        by_cases hn : (b.sq x y).numeral = 0
        · cases fuel with
          | zero =>
            rw [reveal_zero_eq_none b x y hx hy hidx hm' hf' hr' hn] at h
            simp at h
          | succ f =>
            rw [reveal_eq_cascade b f x y hx hy hidx hm' hf' hr' hn,
              cascade_eq_run b f x y hx hy hm' hf' hn] at h
            cases hnb : (b.markRevealed x y).revealNeighbors f nhOffsets x y with
            | none => rw [hnb] at h; simp at h
            | some v => obtain ⟨rs, b2⟩ := v; rw [hnb] at h; simp at h
        · rw [reveal_eq_single b fuel x y hx hy hidx hm' hf' hr' hn] at h
          simp at h

/-- Any error from `reveal` leaves the board unchanged (and is
`InvalidCoordinates`). -/
theorem reveal_error_unchanged (b : GameBoard) (fuel x y : Nat)
    {e : Error} {b' : GameBoard}
    (h : b.reveal fuel x y = some (Except.error e, b')) :
    b' = b ∧ e = Error.InvalidCoordinates := by
  by_cases hx : x ≥ b.width ∨ y ≥ b.height
  · rw [reveal_eq_oob b fuel x y hx] at h
    simp only [Option.some.injEq, Prod.mk.injEq, Except.error.injEq] at h
    exact ⟨h.2.symm, h.1.symm⟩
  · have hx' : x < b.width := by omega
    have hy' : y < b.height := by omega
    by_cases hidx : b.xy_to_idx x y ≥ b.squares.length
    · rw [reveal_eq_idx_oob b fuel x y hx' hy' hidx] at h
      simp only [Option.some.injEq, Prod.mk.injEq, Except.error.injEq] at h
      exact ⟨h.2.symm, h.1.symm⟩
    · exact absurd h (fun hh => reveal_no_error b fuel x y hx' hy' (by omega) hh)

/-- In range and in bounds, a successful `reveal` returns an `ok` result. -/
theorem reveal_ok_shape (b : GameBoard) (fuel x y : Nat)
    (hx : x < b.width) (hy : y < b.height)
    (hidx : b.xy_to_idx x y < b.squares.length)
    (hsome : (b.reveal fuel x y).isSome) :
    ∃ r b', b.reveal fuel x y = some (Except.ok r, b') := by
  cases hv : b.reveal fuel x y with
  | none => rw [hv] at hsome; simp at hsome
  | some v =>
    obtain ⟨r, b'⟩ := v
    cases r with
    | error e => exact absurd hv (fun hh => reveal_no_error b fuel x y hx hy hidx hh)
    | ok r => exact ⟨r, b', rfl⟩

/-- After a successful in-range `reveal`, the target square is revealed or
flagged. -/
theorem reveal_rof (b : GameBoard) (fuel x y : Nat)
    (hx : x < b.width) (hy : y < b.height)
    (hidx : b.xy_to_idx x y < b.squares.length)
    {r : Except Error PlayResult} {b' : GameBoard}
    (h : b.reveal fuel x y = some (r, b')) :
    revealedOrFlagged b' x y := by
  have hmark : ((b.markRevealed x y).sq x y).is_revealed = true := by
    rw [sq_markRevealed_self b x y hidx]
    simp [Square.asRevealed]
  by_cases hf : (b.sq x y).is_flagged = true
  · rw [reveal_eq_nochange b fuel x y hx hy hidx (Or.inl hf)] at h
    simp only [Option.some.injEq, Prod.mk.injEq] at h
    obtain ⟨-, h2⟩ := h; subst h2
    exact Or.inr hf
  · have hf' : (b.sq x y).is_flagged = false := by simpa using hf
    by_cases hm : (b.sq x y).is_mine = true
    · rw [reveal_eq_explosion b fuel x y hx hy hidx hm hf'] at h
      simp only [Option.some.injEq, Prod.mk.injEq] at h
      obtain ⟨-, h2⟩ := h; subst h2
      exact Or.inl hmark
    · have hm' : (b.sq x y).is_mine = false := by simpa using hm
      by_cases hr : (b.sq x y).is_revealed = true
      · rw [reveal_eq_nochange b fuel x y hx hy hidx (Or.inr ⟨hm', hr⟩)] at h
        simp only [Option.some.injEq, Prod.mk.injEq] at h
        obtain ⟨-, h2⟩ := h; subst h2
        exact Or.inl hr
      · have hr' : (b.sq x y).is_revealed = false := by simpa using hr
        by_cases hn : (b.sq x y).numeral = 0
        · cases fuel with
          | zero =>
            rw [reveal_zero_eq_none b x y hx hy hidx hm' hf' hr' hn] at h
            simp at h
          | succ f =>
            rw [reveal_eq_cascade b f x y hx hy hidx hm' hf' hr' hn,
              cascade_eq_run b f x y hx hy hm' hf' hn] at h
            cases hnb : (b.markRevealed x y).revealNeighbors f nhOffsets x y with
            | none => rw [hnb] at h; simp at h
            | some v =>
              obtain ⟨rs, b2⟩ := v
              rw [hnb] at h
              simp only [Option.some.injEq, Prod.mk.injEq] at h
              obtain ⟨-, h2⟩ := h; subst h2
              exact Or.inl ((revealNeighbors_step hnb).sq_revealed_mono hmark)
        · rw [reveal_eq_single b fuel x y hx hy hidx hm' hf' hr' hn] at h
          simp only [Option.some.injEq, Prod.mk.injEq] at h
          obtain ⟨-, h2⟩ := h; subst h2
          exact Or.inl hmark

/-- After a successful protected reveal at in-grid coordinates, the target is
revealed or flagged. -/
theorem reveal_protected_rof (b : GameBoard) (fuel : Nat) (ix iy : Int)
    (hx0 : 0 ≤ ix) (hy0 : 0 ≤ iy)
    (hx : ix.toNat < b.width) (hy : iy.toNat < b.height)
    (hidx : b.xy_to_idx ix.toNat iy.toNat < b.squares.length)
    {r : PlayResult} {b' : GameBoard}
    (h : b.reveal_protected fuel ix iy = some (r, b')) :
    revealedOrFlagged b' ix.toNat iy.toNat := by
  rw [GameBoard.reveal_protected, protectedCore, if_neg (by omega),
    if_neg (by omega)] at h
  cases hv : revealGo fuel b ix.toNat iy.toNat with
  | none => rw [hv] at h; simp at h
  | some v =>
    obtain ⟨rr, b2⟩ := v
    have hrev : b.reveal fuel ix.toNat iy.toNat = some (rr, b2) := hv
    cases rr with
    | error e =>
      rw [hv] at h
      simp only [Option.some.injEq, Prod.mk.injEq] at h
      exact absurd hrev (fun hh => reveal_no_error b fuel ix.toNat iy.toNat hx hy hidx hh)
    | ok rr =>
      rw [hv] at h
      simp only [Option.some.injEq, Prod.mk.injEq] at h
      obtain ⟨-, h2⟩ := h; subst h2
      exact reveal_rof b fuel ix.toNat iy.toNat hx hy hidx hrev

/-! ### Maximality of the flood fill (cascade closure) -/

/-- An offset lands inside the grid of `b`, relative to (x, y). -/
def inGridOffset (b : GameBoard) (x y : Nat) (d : Int × Int) : Prop :=
  0 ≤ (x : Int) + d.1 ∧ 0 ≤ (y : Int) + d.2 ∧
  ((x : Int) + d.1).toNat < b.width ∧ ((y : Int) + d.2).toNat < b.height

/-- After a successful neighbor scan, every scanned offset that lands in the
grid points at a revealed-or-flagged cell. -/
theorem revealNeighbors_rof (fuel : Nat) :
    ∀ (ds : List (Int × Int)) (b : GameBoard) (x y : Nat) (rs : List PlayResult)
      (b' : GameBoard), b.WF → b.revealNeighbors fuel ds x y = some (rs, b') →
      ∀ d ∈ ds, inGridOffset b x y d →
        revealedOrFlagged b' (((x : Int) + d.1).toNat) (((y : Int) + d.2).toNat) := by
  intro ds
  induction ds with
  | nil => intro b x y rs b' hwf h d hd; simp at hd
  | cons d0 rest ih =>
    intro b x y rs b' hwf h d hd hgrid
    rw [revealNeighbors_cons] at h
    split at h
    · exact absurd h (by simp)
    · rename_i r0 b1 hp
      split at h
      · exact absurd h (by simp)
      · rename_i rs2 b2 hrest
        simp only [Option.some.injEq, Prod.mk.injEq] at h
        obtain ⟨-, h2⟩ := h; subst h2
        have hstep1 : boardStep b b1 :=
          protectedCore_step (fun _ _ _ _ _ g => revealGo_step fuel g) hp
        rcases List.mem_cons.mp hd with hd0 | hdr
        · subst hd0
          obtain ⟨a1, a2, a3, a4⟩ := hgrid
          have hrof := reveal_protected_rof b fuel ((x : Int) + d.1) ((y : Int) + d.2)
            a1 a2 a3 a4 (idx_lt_length hwf a3 a4) hp
          exact (revealNeighbors_step hrest).rof_mono hrof
        · have hwf1 : b1.WF := hstep1.WF_mono hwf
          have hgrid1 : inGridOffset b1 x y d := by
            obtain ⟨a1, a2, a3, a4⟩ := hgrid
            exact ⟨a1, a2, by rw [hstep1.1]; exact a3, by rw [hstep1.2.1]; exact a4⟩
          exact ih b1 x y rs2 b2 hwf1 hrest d hdr hgrid1

/-- Chebyshev adjacency (distance ≤ 1 in both axes; includes the cell
itself). -/
def adjacent (i j p q : Nat) : Prop :=
  ((i : Int) - p).natAbs ≤ 1 ∧ ((j : Int) - q).natAbs ≤ 1

/-- Between two board states: every zero-numeral empty cell that became
revealed has all its in-grid neighbors revealed or flagged in the final
state. -/
def newZeroClosed (b b' : GameBoard) : Prop :=
  ∀ i j, i < b.width → j < b.height →
    (b.sq i j).is_revealed = false → (b'.sq i j).is_revealed = true →
    (b'.sq i j).square_type = SquareType.Empty → (b'.sq i j).numeral = 0 →
    ∀ p q, p < b.width → q < b.height → adjacent i j p q →
      revealedOrFlagged b' p q

theorem newZeroClosed_refl (b : GameBoard) : newZeroClosed b b := by
  intro i j _ _ h1 h2
  rw [h1] at h2
  exact absurd h2 (by simp)

theorem newZeroClosed_trans {b bm b' : GameBoard}
    (s1 : boardStep b bm) (s2 : boardStep bm b')
    (c1 : newZeroClosed b bm) (c2 : newZeroClosed bm b') :
    newZeroClosed b b' := by
  intro i j hi hj hrb hrb' hty hnum p q hp hq hadj
  by_cases hm : (bm.sq i j).is_revealed = true
  · have h1 := c1 i j hi hj hrb hm (by rw [← hty, s2.sq_type_eq])
      (by rw [← hnum, s2.sq_numeral_eq]) p q hp hq hadj
    exact s2.rof_mono h1
  · have hm' : (bm.sq i j).is_revealed = false := by simpa using hm
    exact c2 i j (by rw [s1.1]; exact hi) (by rw [s1.2.1]; exact hj) hm' hrb' hty hnum
      p q (by rw [s1.1]; exact hp) (by rw [s1.2.1]; exact hq) hadj

theorem mem_nhOffsets_of {a b : Int} (ha : a.natAbs ≤ 1) (hb : b.natAbs ≤ 1) :
    (a, b) ∈ nhOffsets := by
  have ha' : a = -1 ∨ a = 0 ∨ a = 1 := by omega
  have hb' : b = -1 ∨ b = 0 ∨ b = 1 := by omega
  rcases ha' with h | h | h <;> rcases hb' with g | g | g <;> subst h <;> subst g <;>
    simp [nhOffsets]

/-- A cell distinct from (x, y) is untouched by `markRevealed x y`. -/
theorem sq_markRevealed_of_ne {b : GameBoard} {x y i j : Nat}
    (hx : x < b.width) (hi : i < b.width) (hne : ¬ (i = x ∧ j = y)) :
    (b.markRevealed x y).sq i j = b.sq i j := by
  apply sq_markRevealed_other
  intro hidx
  obtain ⟨e1, e2⟩ := xy_to_idx_inj hx hi hidx
  exact hne ⟨e1.symm, e2.symm⟩

/-- `reveal` on a zero-numeral empty unflagged unrevealed cell defers to the
cascade (or runs out of fuel at fuel 0). -/
theorem reveal_eq_cascade_any (b : GameBoard) (fuel x y : Nat)
    (hx : x < b.width) (hy : y < b.height)
    (hidx : b.xy_to_idx x y < b.squares.length)
    (hm : (b.sq x y).is_mine = false) (hf : (b.sq x y).is_flagged = false)
    (hr : (b.sq x y).is_revealed = false) (hn : (b.sq x y).numeral = 0) :
    b.reveal fuel x y
      = (match fuel with
         | 0 => none
         | n + 1 => b.cascade_from n x y) := by
  cases fuel with
  | zero => exact reveal_zero_eq_none b x y hx hy hidx hm hf hr hn
  | succ n => exact reveal_eq_cascade b n x y hx hy hidx hm hf hr hn

/-- One fuel level of the closure property, given the property for the cascade
continuation used by `reveal` at this level. -/
theorem closure_level (fuel : Nat)
    (hcasc : ∀ b x y r b' n, fuel = n + 1 → GameBoard.WF b →
      b.cascade_from n x y = some (r, b') → newZeroClosed b b') :
    (∀ b x y r b', GameBoard.WF b → b.reveal fuel x y = some (r, b') →
      newZeroClosed b b') ∧
    (∀ b ix iy r b', GameBoard.WF b → b.reveal_protected fuel ix iy = some (r, b') →
      newZeroClosed b b') ∧
    (∀ ds b x y rs b', GameBoard.WF b → b.revealNeighbors fuel ds x y = some (rs, b') →
      newZeroClosed b b') ∧
    (∀ b x y r b', GameBoard.WF b → b.cascade_from fuel x y = some (r, b') →
      newZeroClosed b b') := by
  have explosionCase : ∀ (b : GameBoard) (x y : Nat), x < b.width → y < b.height →
      b.xy_to_idx x y < b.squares.length →
      ((b.sq x y).is_mine = true ∨ (b.sq x y).numeral ≠ 0) →
      newZeroClosed b (b.markRevealed x y) := by
    intro b x y hx hy hidx hcase i j hi hj hrb hrb' hty hnum p q hp hq hadj
    by_cases hij : i = x ∧ j = y
    · obtain ⟨e1, e2⟩ := hij; subst e1; subst e2
      rw [sq_markRevealed_self b i j hidx] at hty hnum
      rcases hcase with hmine | hnz
      · rw [Square.is_mine_true_iff] at hmine
        simp [Square.asRevealed, hmine] at hty
      · simp [Square.asRevealed] at hnum
        exact absurd hnum hnz
    · rw [sq_markRevealed_of_ne hx hi hij] at hrb'
      rw [hrb] at hrb'
      exact absurd hrb' (by simp)
  have hR : ∀ b x y r b', GameBoard.WF b → b.reveal fuel x y = some (r, b') →
      newZeroClosed b b' := by
    intro b x y r b' hwf h
    by_cases hoob : x ≥ b.width ∨ y ≥ b.height
    · rw [reveal_eq_oob b fuel x y hoob] at h
      simp only [Option.some.injEq, Prod.mk.injEq] at h
      obtain ⟨-, h2⟩ := h; subst h2; exact newZeroClosed_refl b
    · have hx : x < b.width := by omega
      have hy : y < b.height := by omega
      have hidx := idx_lt_length hwf hx hy
      by_cases hf : (b.sq x y).is_flagged = true
      · rw [reveal_eq_nochange b fuel x y hx hy hidx (Or.inl hf)] at h
        simp only [Option.some.injEq, Prod.mk.injEq] at h
        obtain ⟨-, h2⟩ := h; subst h2; exact newZeroClosed_refl b
      · have hf' : (b.sq x y).is_flagged = false := by simpa using hf
        by_cases hm : (b.sq x y).is_mine = true
        · rw [reveal_eq_explosion b fuel x y hx hy hidx hm hf'] at h
          simp only [Option.some.injEq, Prod.mk.injEq] at h
          obtain ⟨-, h2⟩ := h; subst h2
          exact explosionCase b x y hx hy hidx (Or.inl hm)
        · have hm' : (b.sq x y).is_mine = false := by simpa using hm
          by_cases hr : (b.sq x y).is_revealed = true
          · rw [reveal_eq_nochange b fuel x y hx hy hidx (Or.inr ⟨hm', hr⟩)] at h
            simp only [Option.some.injEq, Prod.mk.injEq] at h
            obtain ⟨-, h2⟩ := h; subst h2; exact newZeroClosed_refl b
          · have hr' : (b.sq x y).is_revealed = false := by simpa using hr
            by_cases hn : (b.sq x y).numeral = 0
            · rw [reveal_eq_cascade_any b fuel x y hx hy hidx hm' hf' hr' hn] at h
              cases fuel with
              | zero => exact absurd h (by simp)
              | succ n => exact hcasc b x y r b' n rfl hwf h
            · rw [reveal_eq_single b fuel x y hx hy hidx hm' hf' hr' hn] at h
              simp only [Option.some.injEq, Prod.mk.injEq] at h
              obtain ⟨-, h2⟩ := h; subst h2
              exact explosionCase b x y hx hy hidx (Or.inr hn)
  have hP : ∀ b ix iy r b', GameBoard.WF b →
      b.reveal_protected fuel ix iy = some (r, b') → newZeroClosed b b' := by
    intro b ix iy r b' hwf h
    rw [GameBoard.reveal_protected, protectedCore] at h
    split at h
    · simp only [Option.some.injEq, Prod.mk.injEq] at h
      obtain ⟨-, h2⟩ := h; subst h2; exact newZeroClosed_refl b
    · split at h
      · simp only [Option.some.injEq, Prod.mk.injEq] at h
        obtain ⟨-, h2⟩ := h; subst h2; exact newZeroClosed_refl b
      · split at h
        · exact absurd h (by simp)
        · rename_i rr b2 heq
          simp only [Option.some.injEq, Prod.mk.injEq] at h
          obtain ⟨-, h2⟩ := h; subst h2
          exact hR _ _ _ _ _ hwf heq
        · rename_i e b2 heq
          simp only [Option.some.injEq, Prod.mk.injEq] at h
          obtain ⟨-, h2⟩ := h; subst h2
          obtain ⟨he, -⟩ := reveal_error_unchanged b fuel _ _ heq
          rw [he]; exact newZeroClosed_refl b
  have hL : ∀ ds b x y rs b', GameBoard.WF b →
      b.revealNeighbors fuel ds x y = some (rs, b') → newZeroClosed b b' := by
    intro ds
    induction ds with
    | nil =>
      intro b x y rs b' hwf h
      rw [revealNeighbors_nil] at h
      simp only [Option.some.injEq, Prod.mk.injEq] at h
      obtain ⟨-, h2⟩ := h; subst h2; exact newZeroClosed_refl b
    | cons d0 rest ih =>
      intro b x y rs b' hwf h
      rw [revealNeighbors_cons] at h
      split at h
      · exact absurd h (by simp)
      · rename_i r0 b1 hp
        split at h
        · exact absurd h (by simp)
        · rename_i rs2 b2 hrest
          simp only [Option.some.injEq, Prod.mk.injEq] at h
          obtain ⟨-, h2⟩ := h; subst h2
          have hstep1 : boardStep b b1 :=
            protectedCore_step (fun _ _ _ _ _ g => revealGo_step fuel g) hp
          exact newZeroClosed_trans hstep1 (revealNeighbors_step hrest)
            (hP _ _ _ _ _ hwf hp) (ih b1 x y rs2 b2 (hstep1.WF_mono hwf) hrest)
  refine ⟨hR, hP, hL, ?_⟩
  · intro b x y r b' hwf h
    by_cases hoob : x ≥ b.width ∨ y ≥ b.height
    · rw [cascade_eq_oob b fuel x y hoob] at h
      simp only [Option.some.injEq, Prod.mk.injEq] at h
      obtain ⟨-, h2⟩ := h; subst h2; exact newZeroClosed_refl b
    · have hx : x < b.width := by omega
      have hy : y < b.height := by omega
      by_cases hprec : (b.sq x y).is_mine = true ∨ (b.sq x y).is_flagged = true ∨
          (b.sq x y).numeral > 0
      · rw [cascade_eq_invalid b fuel x y hx hy hprec] at h
        simp only [Option.some.injEq, Prod.mk.injEq] at h
        obtain ⟨-, h2⟩ := h; subst h2; exact newZeroClosed_refl b
      · push_neg at hprec
        obtain ⟨pm, pf, pn⟩ := hprec
        have hm' : (b.sq x y).is_mine = false := by simpa using pm
        have hf' : (b.sq x y).is_flagged = false := by simpa using pf
        have hn' : (b.sq x y).numeral = 0 := by omega
        rw [cascade_eq_run b fuel x y hx hy hm' hf' hn'] at h
        split at h
        · exact absurd h (by simp)
        · rename_i rs b2 hnb
          simp only [Option.some.injEq, Prod.mk.injEq] at h
          obtain ⟨-, h2⟩ := h; subst h2
          have hidx := idx_lt_length hwf hx hy
          have s1 : boardStep b (b.markRevealed x y) := markRevealed_step b x y
          have hwf1 : (b.markRevealed x y).WF := s1.WF_mono hwf
          have c2 : newZeroClosed (b.markRevealed x y) b2 :=
            hL _ _ _ _ _ _ hwf1 hnb
          intro i j hi hj hrb hrb2 hty hnum p q hp hq hadj
          by_cases hij : i = x ∧ j = y
          · obtain ⟨e1, e2⟩ := hij; subst e1; subst e2
            have hd : ((p : Int) - i, (q : Int) - j) ∈ nhOffsets :=
              mem_nhOffsets_of (by obtain ⟨a, -⟩ := hadj; omega)
                (by obtain ⟨-, a⟩ := hadj; omega)
            have hgrid : inGridOffset (b.markRevealed i j) i j
                ((p : Int) - i, (q : Int) - j) := by
              refine ⟨by omega, by omega, ?_, ?_⟩
              · have hc : (((i : Nat) : Int) + ((p : Int) - i)).toNat = p := by omega
                rw [hc]; exact hp
              · have hc : (((j : Nat) : Int) + ((q : Int) - j)).toNat = q := by omega
                rw [hc]; exact hq
            have hrof := revealNeighbors_rof fuel nhOffsets (b.markRevealed i j) i j
              rs b2 hwf1 hnb _ hd hgrid
            have hcp : (((i : Nat) : Int) + ((p : Int) - i)).toNat = p := by omega
            have hcq : (((j : Nat) : Int) + ((q : Int) - j)).toNat = q := by omega
            rw [hcp, hcq] at hrof
            exact hrof
          · have huntouched := sq_markRevealed_of_ne hx hi hij
            exact c2 i j hi hj (by rw [huntouched]; exact hrb) hrb2 hty hnum
              p q hp hq hadj

/-- The combined closure property for the whole reveal family, by induction on
the fuel. -/
theorem closure_all : ∀ fuel : Nat,
    (∀ b x y r b', GameBoard.WF b → b.reveal fuel x y = some (r, b') →
      newZeroClosed b b') ∧
    (∀ b ix iy r b', GameBoard.WF b → b.reveal_protected fuel ix iy = some (r, b') →
      newZeroClosed b b') ∧
    (∀ ds b x y rs b', GameBoard.WF b → b.revealNeighbors fuel ds x y = some (rs, b') →
      newZeroClosed b b') ∧
    (∀ b x y r b', GameBoard.WF b → b.cascade_from fuel x y = some (r, b') →
      newZeroClosed b b') := by
  intro fuel
  induction fuel with
  | zero => exact closure_level 0 (fun b x y r b' n h0 => absurd h0 (by omega))
  | succ n ih =>
    refine closure_level (n + 1) ?_
    intro b x y r b' n2 heq hwf h
    have hn2 : n2 = n := by omega
    subst hn2
    exact ih.2.2.2 b x y r b' hwf h

/-! ### Mine placement: loop invariants -/

theorem countP_set_incr {α : Type} (p : α → Bool) :
    ∀ (l : List α) (i : Nat) (v d : α), i < l.length → p (l.getD i d) = false →
      p v = true → (l.set i v).countP p = l.countP p + 1
  | [], i, v, d, h, _, _ => by simp at h
  | a :: t, 0, v, d, _, hold, hnew => by
      simp only [List.getD_cons_zero] at hold
      simp [List.countP_cons, hold, hnew]
  | a :: t, i + 1, v, d, h, hold, hnew => by
      simp only [List.getD_cons_succ] at hold
      have ih := countP_set_incr p t i v d (by simpa using h) hold hnew
      have hset : (a :: t).set (i + 1) v = a :: t.set i v := rfl
      rw [hset]
      simp only [List.countP_cons, ih]
      omega

theorem getD_replicate {α : Type} (a d : α) :
    ∀ (n i : Nat), (List.replicate n a).getD i d = if i < n then a else d
  | 0, i => by simp
  | n + 1, 0 => by simp
  | n + 1, i + 1 => by
      simp only [List.replicate, List.getD_cons_succ, getD_replicate a d n i]
      by_cases h : i < n <;> by_cases h2 : i + 1 < n + 1 <;> simp [h, h2] <;> omega

theorem countP_replicate_false {α : Type} (p : α → Bool) (a : α) (h : p a = false) :
    ∀ n, (List.replicate n a).countP p = 0
  | 0 => by simp
  | n + 1 => by
      simp [List.replicate, List.countP_cons, h, countP_replicate_false p a h n]

/-- The exclusion-branch placement loop: starting from a board whose
mine-kind count equals `placed` and in which no in-range cell near `kc` is a
mine, a successful exit yields exactly `num_mines` mines with the near-`kc`
region still clear. -/
theorem placeMinesLoop_inv (kc : Coordinate) (num_mines : Nat) :
    ∀ (samples : List Coordinate) (b : GameBoard) (placed : Nat) (b' : GameBoard),
      placeMinesLoop (some kc) num_mines samples b placed
        = some (Except.ok (), b') →
      placed ≤ num_mines →
      b.mineKindCount = placed →
      (∀ i j, i < b.width → j < b.height → kc.near ⟨i, j⟩ = true →
        (b.sq i j).is_mine = false) →
      b'.mineKindCount = num_mines ∧
      (∀ i j, i < b'.width → j < b'.height → kc.near ⟨i, j⟩ = true →
        (b'.sq i j).is_mine = false) ∧
      b'.width = b.width ∧ b'.height = b.height := by
  intro samples
  induction samples with
  | nil =>
    intro b placed b' h hle hcnt hnear
    rw [placeMinesLoop] at h
    split at h
    · exact absurd h (by simp)
    · simp only [Option.some.injEq, Prod.mk.injEq] at h
      obtain ⟨-, h2⟩ := h; subst h2
      rename_i hstop
      exact ⟨by omega, hnear, rfl, rfl⟩
  | cons c rest ih =>
    intro b placed b' h hle hcnt hnear
    rw [placeMinesLoop] at h
    split at h
    · rename_i hlt
      split at h
      · exact absurd h (by simp)
      · split at h
        · exact absurd h (by simp)
        · rename_i hcx hcidx
          split at h
          · rename_i hok
            obtain ⟨hnotnear, hnotmine⟩ := hok
            have hcxw : c.x < b.width := by
              rcases Nat.lt_or_ge c.x b.width with hh | hh
              · exact hh
              · exact absurd (Or.inl hh) hcx
            have hcyh : c.y < b.height := by
              rcases Nat.lt_or_ge c.y b.height with hh | hh
              · exact hh
              · exact absurd (Or.inr hh) hcx
            have hidxlt : b.coordinate_to_idx c < b.squares.length := by omega
            have hcnt2 : (placeMineAt b c).mineKindCount = placed + 1 := by
              show ((placeMineAt b c).squares).countP (fun s => s.is_mine) = placed + 1
              rw [placeMineAt]
              rw [countP_set_incr (fun s => s.is_mine) b.squares
                (b.coordinate_to_idx c) Square.default_mine Square.blank hidxlt
                (by simpa [GameBoard.sq, GameBoard.coordinate_to_idx] using hnotmine)
                (by simp [Square.default_mine, Square.is_mine])]
              rw [← GameBoard.mineKindCount, hcnt]
            have hnear2 : ∀ i j, i < (placeMineAt b c).width →
                j < (placeMineAt b c).height → kc.near ⟨i, j⟩ = true →
                ((placeMineAt b c).sq i j).is_mine = false := by
              intro i j hiw hjh hn
              by_cases hij : b.xy_to_idx i j = b.coordinate_to_idx c
              · obtain ⟨e1, e2⟩ := xy_to_idx_inj hiw hcxw hij
                subst e1; subst e2
                exact absurd (by simpa using hn) hnotnear
              · have hsq : (placeMineAt b c).sq i j = b.sq i j := by
                  show ((placeMineAt b c).squares).getD
                    ((placeMineAt b c).xy_to_idx i j) Square.blank
                    = b.squares.getD (b.xy_to_idx i j) Square.blank
                  rw [placeMineAt]
                  exact getD_set_ne _ _ _ (fun hh => hij hh.symm) _ _
                rw [hsq]
                exact hnear i j hiw hjh hn
            have hres := ih _ (placed + 1) b' h (by omega) hcnt2 hnear2
            exact ⟨hres.1, hres.2.1, hres.2.2.1, hres.2.2.2⟩
          · exact ih b placed b' h (by omega) hcnt hnear
    · simp only [Option.some.injEq, Prod.mk.injEq] at h
      obtain ⟨-, h2⟩ := h; subst h2
      exact ⟨by omega, hnear, rfl, rfl⟩

/-- In-bounds index from a length equation (no full WF needed). -/
theorem idx_lt_of_len {b : GameBoard} (hlen : b.squares.length = b.width * b.height)
    {x y : Nat} (hx : x < b.width) (hy : y < b.height) :
    b.xy_to_idx x y < b.squares.length := by
  rw [hlen, GameBoard.xy_to_idx]
  calc y * b.width + x < y * b.width + b.width := by omega
  _ = (y + 1) * b.width := by ring
  _ ≤ b.height * b.width := Nat.mul_le_mul_right _ (by omega)
  _ = b.width * b.height := Nat.mul_comm _ _

/-- Successful exclusion placement on a blank board yields exactly `n` mines,
none of them near the exclusion coordinate. -/
theorem populate_mines_around_spec (b : GameBoard) (n : Nat) (kc : Coordinate)
    (samples : List Coordinate) (b' : GameBoard)
    (hblank : b.squares = List.replicate (b.width * b.height) Square.blank)
    (h : b.populate_mines_around n (some kc) samples = some (Except.ok (), b')) :
    b'.mineKindCount = n ∧
    (∀ i j, i < b'.width → j < b'.height → kc.near ⟨i, j⟩ = true →
      (b'.sq i j).is_mine = false) ∧
    b'.width = b.width ∧ b'.height = b.height ∧ b'.is_populated = true := by
  have hlen : b.squares.length = b.width * b.height := by rw [hblank]; simp
  rw [GameBoard.populate_mines_around] at h
  split at h
  · simp at h
  · split at h
    · exact absurd h (by simp)
    · simp at h
    · rename_i u b2 heq
      simp only [Option.some.injEq, Prod.mk.injEq] at h
      obtain ⟨-, h2⟩ := h
      have hb0cnt : ({ b with num_mines := n } : GameBoard).mineKindCount = 0 := by
        show b.squares.countP (fun s => s.is_mine) = 0
        rw [hblank]
        exact countP_replicate_false _ _ (by simp [Square.blank, Square.is_mine]) _
      have hb0near : ∀ i j, i < ({ b with num_mines := n } : GameBoard).width →
          j < ({ b with num_mines := n } : GameBoard).height →
          kc.near ⟨i, j⟩ = true →
          (({ b with num_mines := n } : GameBoard).sq i j).is_mine = false := by
        intro i j hi hj _
        show (b.squares.getD (b.xy_to_idx i j) Square.blank).is_mine = false
        have hidx : b.xy_to_idx i j < b.width * b.height :=
          hlen ▸ idx_lt_of_len hlen hi hj
        rw [hblank, getD_replicate, if_pos hidx]
        simp [Square.blank, Square.is_mine]
      obtain ⟨c1, c2, c3, c4⟩ := placeMinesLoop_inv kc n samples _ 0 b2 heq
        (by omega) hb0cnt hb0near
      subst h2
      refine ⟨c1, ?_, c3, c4, rfl⟩
      intro i j hi hj hn
      exact c2 i j hi hj hn

/-- With in-range samples and a length-consistent board, the placement loop
never returns an error. -/
theorem placeMinesLoop_no_error (keep_clear : Option Coordinate) (num_mines : Nat) :
    ∀ (samples : List Coordinate) (b : GameBoard) (placed : Nat),
      b.squares.length = b.width * b.height →
      (∀ c ∈ samples, c.x < b.width ∧ c.y < b.height) →
      ∀ e b', placeMinesLoop keep_clear num_mines samples b placed
        = some (Except.error e, b') → False := by
  cases keep_clear with
  | none =>
    intro samples
    induction samples with
    | nil =>
      intro b placed hlen hsamp e b' h
      rw [placeMinesLoop] at h
      split at h
      · exact absurd h (by simp)
      · simp at h
    | cons c rest ih =>
      intro b placed hlen hsamp e b' h
      have hrest : ∀ c2 ∈ rest, c2.x < b.width ∧ c2.y < b.height :=
        fun c2 hc2 => hsamp c2 (List.mem_cons_of_mem c hc2)
      rw [placeMinesLoop] at h
      split at h
      · exact ih (placeMineAt b c) (placed + 1)
          (by rw [placeMineAt]; simpa using hlen) hrest e b' h
      · simp at h
  | some kc =>
    intro samples
    induction samples with
    | nil =>
      intro b placed hlen hsamp e b' h
      rw [placeMinesLoop] at h
      split at h
      · exact absurd h (by simp)
      · simp at h
    | cons c rest ih =>
      intro b placed hlen hsamp e b' h
      have hc := hsamp c (List.mem_cons_self c rest)
      have hrest : ∀ c2 ∈ rest, c2.x < b.width ∧ c2.y < b.height :=
        fun c2 hc2 => hsamp c2 (List.mem_cons_of_mem c hc2)
      rw [placeMinesLoop] at h
      split at h
      · rw [if_neg (by omega)] at h
        rw [if_neg (by
          have := idx_lt_of_len hlen hc.1 hc.2
          rw [GameBoard.coordinate_to_idx]
          omega)] at h
        split at h
        · exact ih (placeMineAt b c) (placed + 1)
            (by rw [placeMineAt]; simpa using hlen) hrest e b' h
        · exact ih b placed hlen hrest e b' h
      · simp at h

/-- Any error of `populate_mines_around` (with in-range samples, as produced
by `gen_random_square_coordinates`) leaves the board unchanged. -/
theorem populate_mines_around_error_unchanged (b : GameBoard) (n : Nat)
    (keep_clear : Option Coordinate) (samples : List Coordinate)
    (hlen : b.squares.length = b.width * b.height)
    (hsamp : ∀ c ∈ samples, c.x < b.width ∧ c.y < b.height)
    {e : Error} {b' : GameBoard}
    (h : b.populate_mines_around n keep_clear samples = some (Except.error e, b')) :
    b' = b := by
  rw [GameBoard.populate_mines_around] at h
  split at h
  · simp only [Option.some.injEq, Prod.mk.injEq] at h
    exact h.2.symm
  · split at h
    · exact absurd h (by simp)
    · rename_i e2 b2 heq
      exact absurd heq (fun hh =>
        placeMinesLoop_no_error keep_clear n samples { b with num_mines := n } 0
          (by simpa using hlen) hsamp e2 b2 hh)
    · simp at h

/-! ### Numeral computation -/

theorem set_oob {α : Type} : ∀ (l : List α) (i : Nat) (v : α),
    l.length ≤ i → l.set i v = l
  | [], _, _, _ => by simp
  | a :: t, 0, v, h => by simp at h
  | a :: t, i + 1, v, h => by
      have hset : (a :: t).set (i + 1) v = a :: t.set i v := rfl
      rw [hset, set_oob t i v (by simpa using h)]

/-- Two boards with identical dimensions and identical per-cell mine kind,
flag and revealed state (numerals may differ). -/
def sameSkeleton (b b' : GameBoard) : Prop :=
  b'.width = b.width ∧ b'.height = b.height ∧
  b'.squares.length = b.squares.length ∧
  ∀ i, (b'.squares.getD i Square.blank).square_type
        = (b.squares.getD i Square.blank).square_type ∧
      (b'.squares.getD i Square.blank).is_flagged
        = (b.squares.getD i Square.blank).is_flagged ∧
      (b'.squares.getD i Square.blank).is_revealed
        = (b.squares.getD i Square.blank).is_revealed

theorem sameSkeleton_refl (b : GameBoard) : sameSkeleton b b :=
  ⟨rfl, rfl, rfl, fun _ => ⟨rfl, rfl, rfl⟩⟩

theorem sameSkeleton_trans {b1 b2 b3 : GameBoard}
    (h1 : sameSkeleton b1 b2) (h2 : sameSkeleton b2 b3) : sameSkeleton b1 b3 := by
  obtain ⟨w1, h1', l1, f1⟩ := h1
  obtain ⟨w2, h2', l2, f2⟩ := h2
  refine ⟨w2.trans w1, h2'.trans h1', l2.trans l1, fun i => ?_⟩
  obtain ⟨a1, a2, a3⟩ := f1 i
  obtain ⟨c1, c2, c3⟩ := f2 i
  exact ⟨c1.trans a1, c2.trans a2, c3.trans a3⟩

theorem setNumeralAt_skeleton (b : GameBoard) (x y : Nat) :
    sameSkeleton b (setNumeralAt b x y) := by
  refine ⟨rfl, rfl, by rw [setNumeralAt]; simp, fun i => ?_⟩
  rw [setNumeralAt]
  by_cases hlt : b.xy_to_idx x y < b.squares.length
  · by_cases hi : i = b.xy_to_idx x y
    · rw [hi]
      show ((b.squares.set (b.xy_to_idx x y) _).getD (b.xy_to_idx x y)
        Square.blank).square_type = _ ∧ _
      rw [getD_set_self _ _ hlt]
      exact ⟨rfl, rfl, rfl⟩
    · show ((b.squares.set (b.xy_to_idx x y) _).getD i Square.blank).square_type = _ ∧ _
      rw [getD_set_ne _ _ _ (fun hh => hi hh.symm)]
      exact ⟨rfl, rfl, rfl⟩
  · show ((b.squares.set (b.xy_to_idx x y) _).getD i Square.blank).square_type = _ ∧ _
    rw [set_oob _ _ _ (by omega)]
    exact ⟨rfl, rfl, rfl⟩

theorem get_square_eq_ok {b : GameBoard} {x y : Nat}
    (hx : x < b.width) (hy : y < b.height)
    (hidx : b.xy_to_idx x y < b.squares.length) :
    b.get_square x y = Except.ok (b.sq x y) := by
  rw [GameBoard.get_square, if_neg (by omega), GameBoard.get_square_by_idx,
    if_neg (by omega)]
  rfl

theorem get_square_eq_err1 {b : GameBoard} {x y : Nat}
    (hoor : x ≥ b.width ∨ y ≥ b.height) :
    b.get_square x y = Except.error Error.InvalidCoordinates := by
  rw [GameBoard.get_square, if_pos hoor]

theorem get_square_eq_err2 {b : GameBoard} {x y : Nat}
    (hx : x < b.width) (hy : y < b.height)
    (hidx : b.xy_to_idx x y ≥ b.squares.length) :
    b.get_square x y = Except.error Error.InvalidCoordinates := by
  rw [GameBoard.get_square, if_neg (by omega), GameBoard.get_square_by_idx,
    if_pos hidx]

theorem sameSkeleton.mine_protected {b b' : GameBoard} (h : sameSkeleton b b')
    (x y : Int) : b'.is_mine_protected x y = b.is_mine_protected x y := by
  obtain ⟨hw, hh, hl, hf⟩ := h
  rw [GameBoard.is_mine_protected, GameBoard.is_mine_protected]
  by_cases hx : x < 0
  · simp [hx]
  · by_cases hy : y < 0
    · simp [hx, hy]
    · simp only [if_neg hx, if_neg hy]
      by_cases hoor : x.toNat ≥ b.width ∨ y.toNat ≥ b.height
      · rw [get_square_eq_err1 (b := b) hoor,
          get_square_eq_err1 (b := b') (by rw [hw, hh]; exact hoor)]
      · by_cases hidx : b.xy_to_idx x.toNat y.toNat < b.squares.length
        · have hidxeq : b'.xy_to_idx x.toNat y.toNat = b.xy_to_idx x.toNat y.toNat := by
            rw [GameBoard.xy_to_idx, GameBoard.xy_to_idx, hw]
          have hidx' : b'.xy_to_idx x.toNat y.toNat < b'.squares.length := by
            rw [hidxeq, hl]; exact hidx
          rw [get_square_eq_ok (b := b) (by omega) (by omega) hidx,
            get_square_eq_ok (b := b') (by rw [hw]; omega) (by rw [hh]; omega) hidx']
          show (b'.sq x.toNat y.toNat).is_mine = (b.sq x.toNat y.toNat).is_mine
          have hsame := hf (b.xy_to_idx x.toNat y.toNat)
          rw [GameBoard.sq, GameBoard.sq, hidxeq, Square.is_mine, Square.is_mine,
            hsame.1]
        · rw [get_square_eq_err2 (b := b) (by omega) (by omega) (by omega),
            get_square_eq_err2 (b := b') (by rw [hw]; omega) (by rw [hh]; omega) (by
              rw [GameBoard.xy_to_idx, hw, hl]
              rw [GameBoard.xy_to_idx] at hidx
              omega)]

theorem sameSkeleton.minedSum {b b' : GameBoard} (h : sameSkeleton b b')
    (x y : Nat) : minedNeighborSum b' x y = minedNeighborSum b x y := by
  rw [minedNeighborSum, minedNeighborSum]
  congr 1
  apply List.map_congr_left
  intro d _
  rw [h.mine_protected]

/-- Effect of the `populate_numerals` fold on numerals: processed in-range
cells hold the mined-neighbor sum of the original board, others are
untouched. -/
theorem foldNumerals_spec (b0 : GameBoard)
    (hlen : b0.squares.length = b0.width * b0.height) :
    ∀ (l : List (Nat × Nat)) (b : GameBoard), sameSkeleton b0 b →
      (∀ p ∈ l, p.1 < b0.width ∧ p.2 < b0.height) →
      sameSkeleton b0 (l.foldl (fun acc p => setNumeralAt acc p.1 p.2) b) ∧
      (∀ i j, i < b0.width → j < b0.height →
        ((l.foldl (fun acc p => setNumeralAt acc p.1 p.2) b).sq i j).numeral
          = (if (i, j) ∈ l then minedNeighborSum b0 i j else (b.sq i j).numeral)) := by
  intro l
  induction l with
  | nil =>
    intro b hsk _
    exact ⟨hsk, fun i j hi hj => by simp⟩
  | cons p rest ih =>
    obtain ⟨p1, p2⟩ := p
    intro b hsk hran
    have hp_range := hran (p1, p2) (List.mem_cons_self (p1, p2) rest)
    have hrest_range : ∀ q ∈ rest, q.1 < b0.width ∧ q.2 < b0.height :=
      fun q hq => hran q (List.mem_cons_of_mem (p1, p2) hq)
    have hsk1 : sameSkeleton b0 (setNumeralAt b p1 p2) :=
      sameSkeleton_trans hsk (setNumeralAt_skeleton b p1 p2)
    obtain ⟨hskF, hnumF⟩ := ih (setNumeralAt b p1 p2) hsk1 hrest_range
    refine ⟨hskF, fun i j hi hj => ?_⟩
    show ((List.foldl (fun acc q => setNumeralAt acc q.1 q.2)
      (setNumeralAt b p1 p2) rest).sq i j).numeral = _
    rw [hnumF i j hi hj]
    have hxw : i < b.width := by rw [hsk.1]; exact hi
    have hyh : j < b.height := by rw [hsk.2.1]; exact hj
    have hpw : p1 < b.width := by rw [hsk.1]; exact hp_range.1
    have hph : p2 < b.height := by rw [hsk.2.1]; exact hp_range.2
    by_cases hmem : (i, j) ∈ rest
    · simp [hmem]
    · by_cases hp : (i, j) = (p1, p2)
      · simp only [Prod.mk.injEq] at hp
        obtain ⟨hp1, hp2⟩ := hp
        subst hp1; subst hp2
        simp only [hmem, if_false, List.mem_cons, true_or, if_true]
        have hidx : b.xy_to_idx i j < b.squares.length := by
          rw [hsk.2.2.1]
          have hidx0 : b0.xy_to_idx i j < b0.squares.length :=
            idx_lt_of_len hlen hi hj
          rw [GameBoard.xy_to_idx] at hidx0 ⊢
          rw [hsk.1]
          exact hidx0
        show ((setNumeralAt b i j).squares.getD ((setNumeralAt b i j).xy_to_idx i j)
          Square.blank).numeral = minedNeighborSum b0 i j
        rw [setNumeralAt]
        show ((b.squares.set (b.xy_to_idx i j) _).getD (b.xy_to_idx i j)
          Square.blank).numeral = minedNeighborSum b0 i j
        rw [getD_set_self _ _ hidx]
        show (if i ≥ b.width ∨ j ≥ b.height then 0 else minedNeighborSum b i j)
          = minedNeighborSum b0 i j
        rw [if_neg (by omega)]
        exact hsk.minedSum i j
      · simp only [List.mem_cons, hmem, hp, or_self, if_false]
        have hne : b.xy_to_idx i j ≠ b.xy_to_idx p1 p2 := by
          intro hh
          obtain ⟨e1, e2⟩ := xy_to_idx_inj hxw hpw hh
          exact hp (by rw [e1, e2])
        show ((setNumeralAt b p1 p2).squares.getD
          ((setNumeralAt b p1 p2).xy_to_idx i j) Square.blank).numeral
          = (b.sq i j).numeral
        rw [setNumeralAt]
        show ((b.squares.set (b.xy_to_idx p1 p2) _).getD (b.xy_to_idx i j)
          Square.blank).numeral = (b.sq i j).numeral
        rw [getD_set_ne _ _ _ (fun hh => hne hh.symm)]
        rfl

theorem mem_coordList {w h i j : Nat} :
    (i, j) ∈ coordList w h ↔ i < w ∧ j < h := by
  rw [coordList]
  simp only [List.mem_flatMap, List.mem_map, List.mem_range, Prod.mk.injEq]
  constructor
  · rintro ⟨x, hx, y, hy, e1, e2⟩
    subst e1; subst e2; exact ⟨hx, hy⟩
  · rintro ⟨hi, hj⟩
    exact ⟨i, hi, j, hj, rfl, rfl⟩

/-- `populate_numerals` always succeeds, only changes numerals, and assigns
every in-range cell the 3×3 mined-neighbor sum of the original board. -/
theorem populate_numerals_spec (b : GameBoard)
    (hlen : b.squares.length = b.width * b.height) :
    (b.populate_numerals).1 = Except.ok () ∧
    sameSkeleton b (b.populate_numerals).2 ∧
    ∀ i j, i < b.width → j < b.height →
      ((b.populate_numerals).2.sq i j).numeral = minedNeighborSum b i j := by
  obtain ⟨hsk, hnum⟩ := foldNumerals_spec b hlen (coordList b.width b.height) b
    (sameSkeleton_refl b)
    (fun p hp => by
      obtain ⟨p1, p2⟩ := p
      exact mem_coordList.mp hp)
  refine ⟨rfl, hsk, fun i j hi hj => ?_⟩
  have := hnum i j hi hj
  rw [if_pos (mem_coordList.mpr ⟨hi, hj⟩)] at this
  exact this

/-! ### The spec's 8-neighbor count versus the code's 3×3 sum -/

theorem Int.toNat_cast_nat (n : Nat) : ((n : Int)).toNat = n := rfl

theorem is_mine_protected_inrange {b : GameBoard}
    (hlen : b.squares.length = b.width * b.height) {x y : Nat}
    (hx : x < b.width) (hy : y < b.height) :
    b.is_mine_protected (x : Int) (y : Int) = (b.sq x y).is_mine := by
  rw [GameBoard.is_mine_protected, if_neg (by omega), if_neg (by omega)]
  have hxx : ((x : Int)).toNat = x := rfl
  have hyy : ((y : Int)).toNat = y := rfl
  rw [hxx, hyy, get_square_eq_ok hx hy (idx_lt_of_len hlen hx hy)]

/-- The 8 proper neighbor offsets (the 3×3 block without the center). -/
def eightNeighborOffsets : List (Int × Int) :=
  [(-1, -1), (-1, 0), (-1, 1), (0, -1), (0, 1), (1, -1), (1, 0), (1, 1)]

/-- The count the spec speaks about: mine-kind cells among the existing
(in-grid) 8 neighbors of (x, y), the cell itself excluded. -/
def eightNeighborMineCount (b : GameBoard) (x y : Nat) : Nat :=
  (eightNeighborOffsets.filter (fun d =>
    b.is_mine_protected ((x : Int) + d.1) ((y : Int) + d.2))).length

theorem sum_map_ite_one {α : Type} (p : α → Bool) :
    ∀ l : List α, (l.map (fun a => if p a then 1 else 0)).sum = (l.filter p).length
  | [] => rfl
  | a :: t => by
      by_cases h : p a
      · simp [List.filter_cons, h, sum_map_ite_one p t]
        omega
      · simp [List.filter_cons, h, sum_map_ite_one p t]

/-- For a non-mine cell the code's 3×3 sum equals the spec's 8-neighbor
count: the center contributes nothing. -/
theorem minedSum_eq_eightCount {b : GameBoard}
    (hlen : b.squares.length = b.width * b.height) {x y : Nat}
    (hx : x < b.width) (hy : y < b.height)
    (hcell : (b.sq x y).is_mine = false) :
    minedNeighborSum b x y = eightNeighborMineCount b x y := by
  have hcenter : b.is_mine_protected (x : Int) (y : Int) = false :=
    (is_mine_protected_inrange hlen hx hy).trans hcell
  have h1 := sum_map_ite_one
    (fun d => b.is_mine_protected ((x : Int) + d.1) ((y : Int) + d.2)) nhOffsets
  have h2 : (nhOffsets.filter (fun d =>
      b.is_mine_protected ((x : Int) + d.1) ((y : Int) + d.2))).length
      = eightNeighborMineCount b x y := by
    rw [eightNeighborMineCount, nhOffsets, eightNeighborOffsets]
    simp only [List.filter_cons, List.filter_nil]
    simp [hcenter]
  rw [minedNeighborSum]
  exact h1.trans h2

/-! ### Aggregate counts -/

theorem num_revealed_eq_countP (b : GameBoard) :
    b.num_revealed = b.squares.countP (fun s => s.is_revealed) := by
  rw [GameBoard.num_revealed]
  have h := sum_map_ite_one (fun s : Square => s.is_revealed) b.squares
  rw [h, List.countP_eq_length_filter]

theorem num_revealed_le_area (b : GameBoard)
    (hlen : b.squares.length = b.width * b.height) :
    b.num_revealed ≤ b.width * b.height := by
  rw [num_revealed_eq_countP, ← hlen]
  exact List.countP_le_length _

/-! ### Chord result shapes -/

theorem chord_no_error (b : GameBoard) (fuel x y : Nat)
    (hx : x < b.width) (hy : y < b.height)
    (hidx : b.xy_to_idx x y < b.squares.length)
    {e : Error} {b' : GameBoard} :
    b.chord fuel x y = some (Except.error e, b') → False := by
  intro h
  rw [GameBoard.chord, if_neg (by omega), if_neg (by omega)] at h
  split at h
  · split at h
    · exact absurd h (by simp)
    · simp at h
  · simp at h

theorem chord_ok_shape (b : GameBoard) (fuel x y : Nat)
    (hx : x < b.width) (hy : y < b.height)
    (hidx : b.xy_to_idx x y < b.squares.length)
    (hsome : (b.chord fuel x y).isSome) :
    (∃ v b', b.chord fuel x y = some (Except.ok (PlayResult.CascadedReveal v), b')) ∨
    b.chord fuel x y = some (Except.ok PlayResult.NoChange, b) := by
  by_cases hcan : (b.sq x y).numeral = 0 ∨ (b.sq x y).numeral = flaggedNeighborSum b x y
  · left
    rw [chord_eq_run b fuel x y hx hy hidx hcan] at hsome ⊢
    cases hnb : b.revealNeighbors fuel nhOffsets x y with
    | none => rw [hnb] at hsome; simp at hsome
    | some v =>
      obtain ⟨rs, b2⟩ := v
      exact ⟨rs, b2, rfl⟩
  · right
    push_neg at hcan
    exact chord_eq_nochange b fuel x y hx hy hidx hcan.1 hcan.2

/-! ### More result-shape lemmas -/

/-- A successful `chord` returns only `NoChange` or a `CascadedReveal`. -/
theorem chord_ok_only (b : GameBoard) (fuel x y : Nat) {rc : PlayResult}
    {b' : GameBoard} (h : b.chord fuel x y = some (Except.ok rc, b')) :
    rc = PlayResult.NoChange ∨ ∃ v, rc = PlayResult.CascadedReveal v := by
  rw [GameBoard.chord] at h
  split at h
  · simp at h
  · split at h
    · simp at h
    · split at h
      · split at h
        · exact absurd h (by simp)
        · simp only [Option.some.injEq, Prod.mk.injEq, Except.ok.injEq] at h
          exact Or.inr ⟨_, h.1.symm⟩
      · simp only [Option.some.injEq, Prod.mk.injEq, Except.ok.injEq] at h
        exact Or.inl h.1.symm

/-- A successful `reveal` result implies the coordinate was in range and in
bounds. -/
theorem reveal_ok_bounds (b : GameBoard) (fuel x y : Nat) {r : PlayResult}
    {b' : GameBoard} (h : b.reveal fuel x y = some (Except.ok r, b')) :
    x < b.width ∧ y < b.height ∧ b.xy_to_idx x y < b.squares.length := by
  by_cases hoob : x ≥ b.width ∨ y ≥ b.height
  · rw [reveal_eq_oob b fuel x y hoob] at h
    simp at h
  · by_cases hidx : b.xy_to_idx x y ≥ b.squares.length
    · rw [reveal_eq_idx_oob b fuel x y (by omega) (by omega) hidx] at h
      simp at h
    · exact ⟨by omega, by omega, by omega⟩

/-- Any error from `chord` leaves the board unchanged. -/
theorem chord_error_unchanged (b : GameBoard) (fuel x y : Nat) {e : Error}
    {b' : GameBoard} (h : b.chord fuel x y = some (Except.error e, b')) :
    b' = b := by
  rw [GameBoard.chord] at h
  split at h
  · simp only [Option.some.injEq, Prod.mk.injEq] at h
    exact h.2.symm
  · split at h
    · simp only [Option.some.injEq, Prod.mk.injEq] at h
      exact h.2.symm
    · split at h
      · split at h
        · exact absurd h (by simp)
        · simp at h
      · simp at h

/-- Any error from `cascade_from` leaves the board unchanged. -/
theorem cascade_error_unchanged (b : GameBoard) (fuel x y : Nat) {e : Error}
    {b' : GameBoard} (h : b.cascade_from fuel x y = some (Except.error e, b')) :
    b' = b := by
  rw [GameBoard.cascade_from, cascadeCore] at h
  split at h
  · simp only [Option.some.injEq, Prod.mk.injEq] at h
    exact h.2.symm
  · split at h
    · simp only [Option.some.injEq, Prod.mk.injEq] at h
      exact h.2.symm
    · split at h
      · exact absurd h (by simp)
      · simp at h

/-- Any error from `flag` leaves the board unchanged. -/
theorem flag_error_unchanged (b : GameBoard) (x y : Nat) {e : Error}
    {b' : GameBoard} (h : b.flag x y = (Except.error e, b')) :
    b' = b := by
  rw [GameBoard.flag] at h
  split at h
  · simp only [Prod.mk.injEq] at h
    exact h.2.symm
  · split at h
    · simp only [Prod.mk.injEq] at h
      exact h.2.symm
    · split at h
      · simp at h
      · simp at h

/-- Unfolding `revealchord` when chord produced a cascade. -/
theorem revealchord_eq_casc (b : GameBoard) (fuel x y : Nat) (rv : PlayResult)
    (b1 : GameBoard) (v : List PlayResult) (b2 : GameBoard)
    (h1 : b.reveal fuel x y = some (Except.ok rv, b1))
    (h2 : b1.chord fuel x y = some (Except.ok (PlayResult.CascadedReveal v), b2)) :
    b.revealchord fuel x y
      = some (Except.ok (PlayResult.CascadedReveal (v ++ [rv])), b2) := by
  rw [GameBoard.revealchord, h1]
  show (match b1.chord fuel x y with
    | none => none
    | some (Except.error e, b2) => some (Except.error e, b2)
    | some (Except.ok rc, b2) =>
      match rc with
      | PlayResult.CascadedReveal v =>
          some (Except.ok (PlayResult.CascadedReveal (v ++ [rv])), b2)
      | PlayResult.NoChange => some (Except.ok (PlayResult.CascadedReveal [rv]), b2)
      | _ => some (Except.error Error.UnexpectedResult, b2)) = _
  rw [h2]

/-- Unfolding `revealchord` when chord was a no-op. -/
theorem revealchord_eq_nochange (b : GameBoard) (fuel x y : Nat) (rv : PlayResult)
    (b1 : GameBoard) (b2 : GameBoard)
    (h1 : b.reveal fuel x y = some (Except.ok rv, b1))
    (h2 : b1.chord fuel x y = some (Except.ok PlayResult.NoChange, b2)) :
    b.revealchord fuel x y
      = some (Except.ok (PlayResult.CascadedReveal [rv]), b2) := by
  rw [GameBoard.revealchord, h1]
  show (match b1.chord fuel x y with
    | none => none
    | some (Except.error e, b2) => some (Except.error e, b2)
    | some (Except.ok rc, b2) =>
      match rc with
      | PlayResult.CascadedReveal v =>
          some (Except.ok (PlayResult.CascadedReveal (v ++ [rv])), b2)
      | PlayResult.NoChange => some (Except.ok (PlayResult.CascadedReveal [rv]), b2)
      | _ => some (Except.error Error.UnexpectedResult, b2)) = _
  rw [h2]

/-- `revealchord` error propagation: the reveal stage failed. -/
theorem revealchord_error_cases (b : GameBoard) (fuel x y : Nat) {e : Error}
    {b' : GameBoard}
    (h : b.revealchord fuel x y = some (Except.error e, b')) : b' = b := by
  rw [GameBoard.revealchord] at h
  split at h
  · exact absurd h (by simp)
  · rename_i e2 b2 hrev
    simp only [Option.some.injEq, Prod.mk.injEq] at h
    obtain ⟨-, h2⟩ := h; subst h2
    exact (reveal_error_unchanged b fuel x y hrev).1
  · rename_i rv b1 hrev
    split at h
    · exact absurd h (by simp)
    · rename_i e2 b2 hch
      exfalso
      obtain ⟨hx, hy, hidx⟩ := reveal_ok_bounds b fuel x y hrev
      have hstep := reveal_step hrev
      exact chord_no_error b1 fuel x y (by rw [hstep.1]; exact hx)
        (by rw [hstep.2.1]; exact hy)
        (by
          have : b1.xy_to_idx x y = b.xy_to_idx x y := by
            rw [GameBoard.xy_to_idx, GameBoard.xy_to_idx, hstep.1]
          rw [this, hstep.length_eq]
          exact hidx) hch
    · rename_i rc b2 hch
      rcases chord_ok_only b1 fuel x y hch with hh | ⟨v, hh⟩ <;> subst hh <;>
        simp at h

/-! ### Example boards used by witnesses and counterexamples -/

/-- Blank 2×2 board. -/
def exBlank22 : GameBoard := GameBoard.new 2 2

/-- Blank 2×1 board. -/
def exBlank21 : GameBoard := GameBoard.new 2 1

/-- Blank 3×1 board. -/
def exBlank31 : GameBoard := GameBoard.new 3 1

/-- A populated 5×1 row: mines at both ends, numerals as `populate_numerals`
computes them. -/
def exRow5 : GameBoard :=
  { width := 5, height := 1, num_mines := 2,
    squares := [{ Square.default_mine with numeral := 1 },
      { Square.blank with numeral := 1 }, Square.blank,
      { Square.blank with numeral := 1 }, { Square.default_mine with numeral := 1 }],
    is_populated := true }

/-- A 2×1 board whose empty numbered cell (0,0) is flagged, with the mine at
(1,0). -/
def exFlag21 : GameBoard :=
  { width := 2, height := 1, num_mines := 1,
    squares := [{ Square.blank with is_flagged := true, numeral := 1 },
      { Square.default_mine with numeral := 1 }],
    is_populated := true }

/-- An unnumbered 2×1 board with one mine, input of `populate_numerals`. -/
def exPre21 : GameBoard :=
  { width := 2, height := 1, num_mines := 1,
    squares := [Square.blank, Square.default_mine], is_populated := true }

/-! ### The claims -/

/-- C1: the claim says both placement branches reject an already-mined sample
so that exactly `n` mine-kind cells exist on success; but the no-exclusion
branch of `populate_mines_around` places and counts without checking
`sqr.is_mine()`.  On the blank 2×2 board, `populate_mines 2` with the sample
stream [(0,0), (0,0)] terminates successfully (`mines_placed` reaches 2 and
`num_mines` is set to 2) yet only ONE mine-kind cell exists. -/
theorem C1_populate_mines_duplicate_sample :
    (exBlank22.populate_mines 2 [⟨0, 0⟩, ⟨0, 0⟩]).map
      (fun r => ((match r.1 with
        | Except.ok _ => true
        | Except.error _ => false),
        r.2.mineKindCount, r.2.num_mines, r.2.is_populated))
      = some (true, 1, 2, true) ∧ (1 : Nat) ≠ 2 :=
  ⟨rfl, by decide⟩

/-- C2: `reveal` follows the exact case analysis of the claim: an unflagged
mine is marked revealed with `Explosion`; a non-mine, unflagged, unrevealed
cell cascades when its numeral is 0 and otherwise is marked revealed with
`Revealed`; every other case (flagged of any kind, or revealed non-mine)
returns `NoChange` with the board untouched. -/
theorem C2_reveal_case_analysis (fuel : Nat) (b : GameBoard) (x y : Nat)
    (hwf : b.WF) (hx : x < b.width) (hy : y < b.height)
    (hfuel : b.unrevealedCount < fuel) :
    ((b.sq x y).is_mine = true → (b.sq x y).is_flagged = false →
      b.reveal fuel x y
        = some (Except.ok (PlayResult.Explosion ⟨x, y⟩), b.markRevealed x y)) ∧
    ((b.sq x y).is_mine = false → (b.sq x y).is_flagged = false →
      (b.sq x y).is_revealed = false → (b.sq x y).numeral ≠ 0 →
      b.reveal fuel x y
        = some (Except.ok (PlayResult.Revealed ⟨x, y⟩), b.markRevealed x y)) ∧
    ((b.sq x y).is_mine = false → (b.sq x y).is_flagged = false →
      (b.sq x y).is_revealed = false → (b.sq x y).numeral = 0 →
      ∃ rs b', b.reveal fuel x y
        = some (Except.ok (PlayResult.CascadedReveal rs), b')) ∧
    (((b.sq x y).is_flagged = true ∨
        ((b.sq x y).is_mine = false ∧ (b.sq x y).is_revealed = true)) →
      b.reveal fuel x y = some (Except.ok PlayResult.NoChange, b)) := by
  have hidx := idx_lt_length hwf hx hy
  refine ⟨?_, ?_, ?_, ?_⟩
  · intro hm hf
    exact reveal_eq_explosion b fuel x y hx hy hidx hm hf
  · intro hm hf hr hn
    exact reveal_eq_single b fuel x y hx hy hidx hm hf hr hn
  · intro hm hf hr hn
    cases fuel with
    | zero => omega
    | succ f =>
      rw [reveal_eq_cascade b f x y hx hy hidx hm hf hr hn,
        cascade_eq_run b f x y hx hy hm hf hn]
      have hmk := unrev_markRevealed b x y hidx hr
      have hsome := revealNeighbors_some (b.markRevealed x y) f nhOffsets x y
        (by omega)
      cases hnb : (b.markRevealed x y).revealNeighbors f nhOffsets x y with
      | none => rw [hnb] at hsome; simp at hsome
      | some v =>
        obtain ⟨rs, b2⟩ := v
        exact ⟨rs, b2, rfl⟩
  · intro hcase
    exact reveal_eq_nochange b fuel x y hx hy hidx hcase

/-- Witness for C2 on the concrete 5×1 row: revealing the unflagged mine at
(0,0) marks it revealed and returns `Explosion`. -/
theorem C2_reveal_case_analysis_witness :
    exRow5.reveal 6 0 0
      = some (Except.ok (PlayResult.Explosion ⟨0, 0⟩), exRow5.markRevealed 0 0) :=
  (C2_reveal_case_analysis 6 exRow5 0 0 (by decide) (by decide) (by decide)
    (by decide)).1 rfl rfl

/-- C4: on a well-formed board, revealing an unflagged, unrevealed, non-mine
zero-numeral cell produces a `CascadedReveal`, and the flood fill is maximal:
after the call, every in-grid neighbor of every zero-numeral empty cell that
was newly revealed by the call is itself revealed or flagged. -/
theorem C4_flood_fill_maximal (fuel : Nat) (b : GameBoard) (x y : Nat)
    (hwf : b.WF) (hx : x < b.width) (hy : y < b.height)
    (hm : (b.sq x y).is_mine = false) (hf : (b.sq x y).is_flagged = false)
    (hr : (b.sq x y).is_revealed = false) (hn : (b.sq x y).numeral = 0)
    (hfuel : b.unrevealedCount < fuel) :
    ∃ rs b', b.reveal fuel x y
        = some (Except.ok (PlayResult.CascadedReveal rs), b') ∧
      ∀ i j, i < b.width → j < b.height →
        (b.sq i j).is_revealed = false → (b'.sq i j).is_revealed = true →
        (b'.sq i j).square_type = SquareType.Empty → (b'.sq i j).numeral = 0 →
        ∀ p q, p < b.width → q < b.height → adjacent i j p q →
          (b'.sq p q).is_revealed = true ∨ (b'.sq p q).is_flagged = true := by
  have hidx := idx_lt_length hwf hx hy
  cases fuel with
  | zero => omega
  | succ f =>
    have hmk := unrev_markRevealed b x y hidx hr
    have hsome := revealNeighbors_some (b.markRevealed x y) f nhOffsets x y
      (by omega)
    cases hnb : (b.markRevealed x y).revealNeighbors f nhOffsets x y with
    | none => rw [hnb] at hsome; simp at hsome
    | some v =>
      obtain ⟨rs, b2⟩ := v
      have hrev : b.reveal (f + 1) x y
          = some (Except.ok (PlayResult.CascadedReveal rs), b2) := by
        rw [reveal_eq_cascade b f x y hx hy hidx hm hf hr hn,
          cascade_eq_run b f x y hx hy hm hf hn, hnb]
      refine ⟨rs, b2, hrev, ?_⟩
      have hclo := (closure_all (f + 1)).1 b x y _ b2 hwf hrev
      intro i j hi hj h1 h2 h3 h4 p q hp hq hadj
      exact hclo i j hi hj h1 h2 h3 h4 p q hp hq hadj

/-- Witness for C4 on the blank 2×1 board: revealing (0,0) floods the whole
row. -/
theorem C4_flood_fill_maximal_witness :
    ∃ rs b', exBlank21.reveal 3 0 0
        = some (Except.ok (PlayResult.CascadedReveal rs), b') ∧
      ∀ i j, i < exBlank21.width → j < exBlank21.height →
        (exBlank21.sq i j).is_revealed = false → (b'.sq i j).is_revealed = true →
        (b'.sq i j).square_type = SquareType.Empty → (b'.sq i j).numeral = 0 →
        ∀ p q, p < exBlank21.width → q < exBlank21.height → adjacent i j p q →
          (b'.sq p q).is_revealed = true ∨ (b'.sq p q).is_flagged = true :=
  C4_flood_fill_maximal 3 exBlank21 0 0 (by decide) (by decide) (by decide)
    rfl rfl rfl rfl (by decide)

/-- C5 counterexample: in the concrete 2×1 board the target (0,0) has numeral
1, its only 8-neighborhood cell (1,0) is unflagged — so the claim's
flagged-neighbor count is 0 ≠ 1 and it demands `NoChange` — yet `chord`
proceeds with a `CascadedReveal`, because `flagged_neighbor_count` scans the
3×3 block including the target itself, whose own flag makes the count 1. -/
theorem C5_chord_counterexample :
    (exFlag21.sq 0 0).numeral = 1 ∧
    (exFlag21.sq 0 0).is_flagged = true ∧
    (exFlag21.sq 1 0).is_flagged = false ∧
    exFlag21.flagged_neighbor_count 0 0 = Except.ok 1 ∧
    (exFlag21.chord 3 0 0).map (fun r => match r.1 with
      | Except.ok (PlayResult.CascadedReveal _) => true
      | _ => false) = some true :=
  ⟨rfl, rfl, rfl, rfl, rfl⟩

/-- C5 (amended): `chord` is a no-op exactly when the numeral is nonzero and
differs from `flagged_neighbor_count`, which counts flags over the whole 3×3
block centered on the target — the target square itself included; when the
numeral is 0 or matches that count, the protected-reveal scan runs and a
`CascadedReveal` is returned, regardless of the target's revealed state. -/
theorem C5_chord_guard (fuel : Nat) (b : GameBoard) (x y : Nat)
    (hwf : b.WF) (hx : x < b.width) (hy : y < b.height)
    (hfuel : b.unrevealedCount < fuel) :
    ∀ cnt, b.flagged_neighbor_count x y = Except.ok cnt →
      (((b.sq x y).numeral ≠ 0 ∧ (b.sq x y).numeral ≠ cnt) →
        b.chord fuel x y = some (Except.ok PlayResult.NoChange, b)) ∧
      (((b.sq x y).numeral = 0 ∨ (b.sq x y).numeral = cnt) →
        ∃ rs b', b.chord fuel x y
          = some (Except.ok (PlayResult.CascadedReveal rs), b')) := by
  intro cnt hcnt
  have hidx := idx_lt_length hwf hx hy
  have hcnt' : cnt = flaggedNeighborSum b x y := by
    rw [GameBoard.flagged_neighbor_count, if_neg (by omega)] at hcnt
    simp only [Except.ok.injEq] at hcnt
    exact hcnt.symm
  subst hcnt'
  constructor
  · intro hno
    exact chord_eq_nochange b fuel x y hx hy hidx hno.1 hno.2
  · intro hcan
    rw [chord_eq_run b fuel x y hx hy hidx hcan]
    have hsome := revealNeighbors_some b fuel nhOffsets x y hfuel
    cases hnb : b.revealNeighbors fuel nhOffsets x y with
    | none => rw [hnb] at hsome; simp at hsome
    | some v =>
      obtain ⟨rs, b2⟩ := v
      exact ⟨rs, b2, rfl⟩

/-- Witness for the amended C5 on the flagged 2×1 board: numeral 1 equals the
3×3 flag count 1 (the target's own flag), so chord proceeds. -/
theorem C5_chord_guard_witness :
    ∃ rs b', exFlag21.chord 3 0 0
      = some (Except.ok (PlayResult.CascadedReveal rs), b') :=
  ((C5_chord_guard 3 exFlag21 0 0 (by decide) (by decide) (by decide)
    (by decide)) 1 rfl).2 (Or.inr rfl)

/-! ### Remaining helpers for the numerals, revealchord and play claims -/

theorem sameSkeleton.eightCount {b b' : GameBoard} (h : sameSkeleton b b')
    (x y : Nat) : eightNeighborMineCount b' x y = eightNeighborMineCount b x y := by
  rw [eightNeighborMineCount, eightNeighborMineCount]
  congr 1
  apply List.filter_congr
  intro d _
  rw [h.mine_protected]

/-- Unfolding `revealchord` when the reveal stage failed. -/
theorem revealchord_eq_err (b : GameBoard) (fuel x y : Nat) {e : Error}
    {b1 : GameBoard} (h1 : b.reveal fuel x y = some (Except.error e, b1)) :
    b.revealchord fuel x y = some (Except.error e, b1) := by
  rw [GameBoard.revealchord, h1]

/-- `flag` preserves the square list length and the dimensions. -/
theorem flag_dims (b : GameBoard) (x y : Nat) :
    (b.flag x y).2.squares.length = b.squares.length ∧
    (b.flag x y).2.width = b.width ∧ (b.flag x y).2.height = b.height := by
  rw [GameBoard.flag]
  split
  · exact ⟨rfl, rfl, rfl⟩
  · split
    · exact ⟨rfl, rfl, rfl⟩
    · split
      · refine ⟨?_, rfl, rfl⟩
        simp [GameBoard.toggleFlagAt]
      · exact ⟨rfl, rfl, rfl⟩

theorem num_revealed_le_of_len (b' : GameBoard) (n : Nat)
    (hlen : b'.squares.length = n) : b'.num_revealed ≤ n := by
  rw [num_revealed_eq_countP, ← hlen]
  exact List.countP_le_length _

/-- With enough fuel, `revealchord` terminates with a result and preserves
the square list length. -/
theorem revealchord_some_len (b : GameBoard) (fuel x y : Nat)
    (hfuel : b.unrevealedCount < fuel) :
    ∃ r b', b.revealchord fuel x y = some (r, b') ∧
      b'.squares.length = b.squares.length := by
  have hrs := reveal_some b fuel x y hfuel
  cases hrv : b.reveal fuel x y with
  | none => rw [hrv] at hrs; simp at hrs
  | some v =>
    obtain ⟨r0, b1⟩ := v
    cases r0 with
    | error e =>
      have hb1 := (reveal_error_unchanged b fuel x y hrv).1
      exact ⟨Except.error e, b1, revealchord_eq_err b fuel x y hrv, by rw [hb1]⟩
    | ok rv =>
      have hstep := reveal_step hrv
      obtain ⟨hx, hy, hidx⟩ := reveal_ok_bounds b fuel x y hrv
      have hx1 : x < b1.width := by rw [hstep.1]; exact hx
      have hy1 : y < b1.height := by rw [hstep.2.1]; exact hy
      have hidx1 : b1.xy_to_idx x y < b1.squares.length := by
        have he : b1.xy_to_idx x y = b.xy_to_idx x y := by
          rw [GameBoard.xy_to_idx, GameBoard.xy_to_idx, hstep.1]
        rw [he, hstep.length_eq]
        exact hidx
      have hchsome := chord_some b1 fuel x y
        (lt_of_le_of_lt hstep.unrev_mono hfuel)
      rcases chord_ok_shape b1 fuel x y hx1 hy1 hidx1 hchsome with
        ⟨v, b2, hch⟩ | hch
      · refine ⟨_, b2, revealchord_eq_casc b fuel x y rv b1 v b2 hrv hch, ?_⟩
        rw [(chord_step hch).length_eq, hstep.length_eq]
      · exact ⟨_, b1, revealchord_eq_nochange b fuel x y rv b1 b1 hrv hch,
          hstep.length_eq⟩

/-- C7: `populate_numerals` always succeeds and gives every empty (non-mine)
cell the number of mines among its existing 8 neighbors — the 3×3 sum the
code computes adds nothing at the center because the cell is not a mine. -/
theorem C7_numerals_correct (b : GameBoard)
    (hlen : b.squares.length = b.width * b.height) :
    (b.populate_numerals).1 = Except.ok () ∧
    ∀ i j, i < b.width → j < b.height →
      ((b.populate_numerals).2.sq i j).square_type = SquareType.Empty →
      ((b.populate_numerals).2.sq i j).numeral
        = eightNeighborMineCount (b.populate_numerals).2 i j := by
  obtain ⟨h1, hsk, hnum⟩ := populate_numerals_spec b hlen
  refine ⟨h1, fun i j hi hj hty => ?_⟩
  have hw := hsk.1
  have hf := hsk.2.2.2
  have hidxeq : (b.populate_numerals).2.xy_to_idx i j = b.xy_to_idx i j := by
    rw [GameBoard.xy_to_idx, GameBoard.xy_to_idx, hw]
  have htyb : (b.sq i j).square_type = SquareType.Empty := by
    have h2 := (hf (b.xy_to_idx i j)).1
    rw [GameBoard.sq, hidxeq] at hty
    rw [GameBoard.sq, ← h2]
    exact hty
  have hmb : (b.sq i j).is_mine = false := Square.is_mine_false_iff.mpr htyb
  rw [hnum i j hi hj, minedSum_eq_eightCount hlen hi hj hmb]
  exact (sameSkeleton.eightCount hsk i j).symm

/-- Witness for C7 on the unnumbered 2×1 board with one mine: the empty cell
gets numeral 1, the count of its single existing neighbor's mine. -/
theorem C7_numerals_correct_witness :
    (exPre21.populate_numerals).1 = Except.ok () ∧
    ((exPre21.populate_numerals).2.sq 0 0).numeral
      = eightNeighborMineCount (exPre21.populate_numerals).2 0 0 := by
  have h := C7_numerals_correct exPre21 rfl
  exact ⟨h.1, h.2 0 0 (by decide) (by decide) rfl⟩

/-- C8: on a well-formed board with enough fuel, `revealchord` composes
reveal then chord: it returns the chord's `CascadedReveal` with the reveal's
result appended, or a singleton of the reveal's result when the chord was a
no-op. -/
theorem C8_revealchord_composition (fuel : Nat) (b : GameBoard) (x y : Nat)
    (hwf : b.WF) (hx : x < b.width) (hy : y < b.height)
    (hfuel : b.unrevealedCount < fuel) :
    ∃ rv b1, b.reveal fuel x y = some (Except.ok rv, b1) ∧
      ((∃ v b2, b1.chord fuel x y
          = some (Except.ok (PlayResult.CascadedReveal v), b2) ∧
        b.revealchord fuel x y
          = some (Except.ok (PlayResult.CascadedReveal (v ++ [rv])), b2)) ∨
      (b1.chord fuel x y = some (Except.ok PlayResult.NoChange, b1) ∧
        b.revealchord fuel x y
          = some (Except.ok (PlayResult.CascadedReveal [rv]), b1))) := by
  have hidx := idx_lt_length hwf hx hy
  obtain ⟨rv, b1, hrev⟩ := reveal_ok_shape b fuel x y hx hy hidx
    (reveal_some b fuel x y hfuel)
  have hstep := reveal_step hrev
  have hx1 : x < b1.width := by rw [hstep.1]; exact hx
  have hy1 : y < b1.height := by rw [hstep.2.1]; exact hy
  have hidx1 : b1.xy_to_idx x y < b1.squares.length := by
    have he : b1.xy_to_idx x y = b.xy_to_idx x y := by
      rw [GameBoard.xy_to_idx, GameBoard.xy_to_idx, hstep.1]
    rw [he, hstep.length_eq]
    exact hidx
  have hchsome := chord_some b1 fuel x y (lt_of_le_of_lt hstep.unrev_mono hfuel)
  rcases chord_ok_shape b1 fuel x y hx1 hy1 hidx1 hchsome with ⟨v, b2, hch⟩ | hch
  · exact ⟨rv, b1, hrev, Or.inl ⟨v, b2, hch,
      revealchord_eq_casc b fuel x y rv b1 v b2 hrev hch⟩⟩
  · exact ⟨rv, b1, hrev, Or.inr ⟨hch,
      revealchord_eq_nochange b fuel x y rv b1 b1 hrev hch⟩⟩

/-- Witness for C8 on the concrete 5×1 row at the numbered cell (1,0). -/
theorem C8_revealchord_composition_witness :
    ∃ rv b1, exRow5.reveal 6 1 0 = some (Except.ok rv, b1) ∧
      ((∃ v b2, b1.chord 6 1 0
          = some (Except.ok (PlayResult.CascadedReveal v), b2) ∧
        exRow5.revealchord 6 1 0
          = some (Except.ok (PlayResult.CascadedReveal (v ++ [rv])), b2)) ∨
      (b1.chord 6 1 0 = some (Except.ok PlayResult.NoChange, b1) ∧
        exRow5.revealchord 6 1 0
          = some (Except.ok (PlayResult.CascadedReveal [rv]), b1))) :=
  C8_revealchord_composition 6 exRow5 1 0 (by decide) (by decide) (by decide)
    (by decide)

/-- C9: with fuel one larger than the current number of unrevealed cells,
`play` always terminates with a result for every action kind, and the
resulting board never has more revealed squares than the board has cells. -/
theorem C9_play_total_bounded (b : GameBoard) (x y : Nat) (rt : RevealType)
    (hwf : b.WF) :
    ∃ r b', b.play (b.unrevealedCount + 1) x y rt = some (r, b') ∧
      b'.num_revealed ≤ b.width * b.height := by
  have hfuel : b.unrevealedCount < b.unrevealedCount + 1 := Nat.lt_succ_self _
  cases rt with
  | Flag =>
    refine ⟨(b.flag x y).1, (b.flag x y).2, rfl, ?_⟩
    exact num_revealed_le_of_len _ _ ((flag_dims b x y).1.trans hwf.1)
  | Reveal =>
    have hrs := reveal_some b (b.unrevealedCount + 1) x y hfuel
    cases hrv : b.reveal (b.unrevealedCount + 1) x y with
    | none => rw [hrv] at hrs; simp at hrs
    | some v =>
      obtain ⟨r, b'⟩ := v
      exact ⟨r, b', hrv, num_revealed_le_of_len _ _
        ((reveal_step hrv).length_eq.trans hwf.1)⟩
  | Chord =>
    have hrs := chord_some b (b.unrevealedCount + 1) x y hfuel
    cases hrv : b.chord (b.unrevealedCount + 1) x y with
    | none => rw [hrv] at hrs; simp at hrs
    | some v =>
      obtain ⟨r, b'⟩ := v
      exact ⟨r, b', hrv, num_revealed_le_of_len _ _
        ((chord_step hrv).length_eq.trans hwf.1)⟩
  | RevealChord =>
    obtain ⟨r, b', hrc, hlen⟩ :=
      revealchord_some_len b (b.unrevealedCount + 1) x y hfuel
    exact ⟨r, b', hrc, num_revealed_le_of_len _ _ (hlen.trans hwf.1)⟩

/-- Witness for C9: a reveal play on the concrete 5×1 row. -/
theorem C9_play_total_bounded_witness :
    ∃ r b', exRow5.play (exRow5.unrevealedCount + 1) 0 0 RevealType.Reveal
        = some (r, b') ∧ b'.num_revealed ≤ exRow5.width * exRow5.height :=
  C9_play_total_bounded exRow5 0 0 RevealType.Reveal (by decide)

/-- C10: every error path is atomic — whenever `reveal`, `cascade_from`,
`chord`, `revealchord`, `flag`, `play`, or (under in-range samples)
`populate_mines_around` returns an error, the board it returns is exactly
the input board; and `populate_numerals` never errors at all. -/
theorem C10_error_atomicity :
    (∀ b fuel x y e b',
      GameBoard.reveal b fuel x y = some (Except.error e, b') → b' = b) ∧
    (∀ b fuel x y e b',
      GameBoard.cascade_from b fuel x y = some (Except.error e, b') → b' = b) ∧
    (∀ b fuel x y e b',
      GameBoard.chord b fuel x y = some (Except.error e, b') → b' = b) ∧
    (∀ b fuel x y e b',
      GameBoard.revealchord b fuel x y = some (Except.error e, b') → b' = b) ∧
    (∀ b x y e b', GameBoard.flag b x y = (Except.error e, b') → b' = b) ∧
    (∀ b fuel x y rt e b',
      GameBoard.play b fuel x y rt = some (Except.error e, b') → b' = b) ∧
    (∀ b n keep_clear samples e b',
      GameBoard.squares b = List.replicate (b.width * b.height) Square.blank →
      (∀ c ∈ samples, Coordinate.x c < b.width ∧ Coordinate.y c < b.height) →
      b.populate_mines_around n keep_clear samples
        = some (Except.error e, b') → b' = b) ∧
    (∀ b : GameBoard, (b.populate_numerals).1 = Except.ok ()) := by
  refine ⟨?_, ?_, ?_, ?_, ?_, ?_, ?_, fun b => rfl⟩
  · intro b fuel x y e b' h
    exact (reveal_error_unchanged b fuel x y h).1
  · intro b fuel x y e b' h
    exact cascade_error_unchanged b fuel x y h
  · intro b fuel x y e b' h
    exact chord_error_unchanged b fuel x y h
  · intro b fuel x y e b' h
    exact revealchord_error_cases b fuel x y h
  · intro b x y e b' h
    exact flag_error_unchanged b x y h
  · intro b fuel x y rt e b' h
    cases rt with
    | Flag =>
      simp only [GameBoard.play, Option.some.injEq] at h
      exact flag_error_unchanged b x y h
    | Reveal => exact (reveal_error_unchanged b fuel x y h).1
    | Chord => exact chord_error_unchanged b fuel x y h
    | RevealChord => exact revealchord_error_cases b fuel x y h
  · intro b n keep_clear samples e b' hblank hsamp h
    refine populate_mines_around_error_unchanged b n keep_clear samples ?_ hsamp h
    rw [hblank]
    simp

/-- Witness for C10: an oversized mine request errors with the board
untouched, and `populate_numerals` succeeds on a concrete board. -/
theorem C10_error_atomicity_witness :
    exBlank22 = exBlank22 ∧ (exBlank22.populate_numerals).1 = Except.ok () := by
  refine ⟨?_, C10_error_atomicity.2.2.2.2.2.2.2 exBlank22⟩
  exact C10_error_atomicity.2.2.2.2.2.2.1 exBlank22 5 none [] Error.ExcessiveMines
    exBlank22 rfl (fun c hc => absurd hc (List.not_mem_nil c)) rfl

end Minesweeper
